import Mathlib

/-!
Verification of the tag-staging / synchronization core of
`src/calendarTagger.js` (a Google Apps Script calendar add-on).

The JavaScript source is embedded shallowly:

* `CacheService` user-cache slots and JS objects are modelled as ordered
  association lists `List (String × α)` (JS objects preserve insertion
  order for non-numeric string keys, and reassignment keeps the position).
* A staged cache payload is the outcome of `JSON.parse` on the stored
  string: `CacheVal.list ts` for a string that parses to an array of
  strings (the only shape the code itself ever writes), and
  `CacheVal.malformed` for a string whose parse throws.  A missing slot
  (`userCache.get` returning `null`) is `none` at the `Option` level;
  `JSON.parse(null)` evaluates to `null`, which is falsy.
* JS `Set` built from an array keeps the first occurrence of each
  element in insertion order (`dedupFirst`); `Set.add` appends when the
  element is absent (`addSet`).
* Fallible remote-store calls (`Calendar.Events.get` / `update`) are
  modelled by lookup in an association list `remote : List (String × Event)`
  keyed by event id (a missing id makes `get` raise, which the source
  catches), plus a parameter `uf : String → Bool` telling which event
  ids make `Events.update` raise.
* Exceptions that the source does *not* catch are modelled with
  `Except`: an `Except.error` result is a JavaScript exception
  propagating out of the entry point.
-/

namespace CalendarTagger

/-! ## Ordered association lists (JS objects / keyed cache slots) -/

/-- Lookup of a key in a JS-object-like ordered association list. -/
def lookupA {α : Type} : List (String × α) → String → Option α
  | [], _ => none
  | (k, v) :: rest, key => if k = key then some v else lookupA rest key

/-- Assignment `obj[key] = v`: overwrite in place, or append when absent. -/
def setA {α : Type} : List (String × α) → String → α → List (String × α)
  | [], key, v => [(key, v)]
  | (k, w) :: rest, key, v =>
    if k = key then (k, v) :: rest else (k, w) :: setA rest key v

/-- Deletion `cache.remove(key)`. -/
def removeA {α : Type} : List (String × α) → String → List (String × α)
  | [], _ => []
  | (k, w) :: rest, key =>
    if k = key then removeA rest key else (k, w) :: removeA rest key

/-- Keys of an association list, in order. -/
def keysOf {α : Type} (l : List (String × α)) : List String := l.map Prod.fst

/-! ## String helpers mirroring the JavaScript primitives used -/

/-- JS `s.startsWith(p)`. -/
def startsWithS (s p : String) : Bool := s.data.take p.data.length == p.data

/-- JS `s.substring(n)` for ASCII strings. -/
def dropS (s : String) (n : Nat) : String := String.mk (s.data.drop n)

/-- JS `s.toLowerCase()` restricted to ASCII (all tags in this program are ASCII). -/
def lowerS (s : String) : String := String.mk (s.data.map Char.toLower)

/-- Whitespace test backing the JS `trim` model. -/
def isWS (c : Char) : Bool := c = ' ' || c = '\t' || c = '\n' || c = '\r'

/-- JS `s.trim()` for ASCII whitespace. -/
def trimS (s : String) : String :=
  String.mk (((s.data.dropWhile isWS).reverse.dropWhile isWS).reverse)

/-- JS truthiness of a string-or-null value: `null` and `""` are falsy. -/
def truthy : Option String → Bool
  | none => false
  | some s => !(s == "")

/-! ## JS `Set` built over lists -/

/-- Worker for `dedupFirst`; `seen` collects elements already emitted. -/
def dedupFirstAux (seen : List String) : List String → List String
  | [] => []
  | x :: xs =>
    if seen.contains x then dedupFirstAux seen xs
    else x :: dedupFirstAux (x :: seen) xs

/-- `new Set(array)` as a list: drop duplicates, keeping the first occurrence. -/
def dedupFirst (l : List String) : List String := dedupFirstAux [] l

/-- `set.add(x)` on a duplicate-free list: append when absent. -/
def addSet (l : List String) (x : String) : List String :=
  if l.contains x then l else l ++ [x]

/-- Add every element of `xs` to the set `l`, in order. -/
def unionSet (l : List String) (xs : List String) : List String :=
  xs.foldl addSet l

/-- Position of the first occurrence of `y` (length of the list when absent). -/
def firstIdx : List String → String → Nat
  | [], _ => 0
  | x :: xs, y => if x = y then 0 else firstIdx xs y + 1

/-! ## Data model -/

/-- Outcome of `JSON.parse` on a stored cache/extension payload. -/
inductive CacheVal : Type
  | list (ts : List String)
  | malformed
deriving DecidableEq, Repr

/-- A calendar event attendee; an absent `email` field is modelled as `""`
(both are falsy under the source's `if (email)` guard). -/
structure Attendee : Type where
  email : String
deriving DecidableEq, Repr

/-- A remote-store event record, restricted to the fields the source uses:
`summary`, `attendees`, and the private extension field `selectedTags`
(`tagsProp`, kept as its parse outcome; `none` covers both an absent and an
empty-string property, which are equally falsy at the source's guard). -/
structure Event : Type where
  summary : Option String
  attendees : List Attendee
  tagsProp : Option CacheVal
deriving DecidableEq, Repr

/-- Per-user durable properties (`PropertiesService.getUserProperties()`),
restricted to the keys the source reads.  `userTags` is the memoized
catalog (parse outcome of the stored JSON; the code only ever stores
stringified arrays). -/
structure Props : Type where
  spreadsheetId : Option String
  sheetName : Option String
  column : Option String
  emailDomainColumn : Option String
  userTags : Option (List String)
deriving DecidableEq, Repr

/-- The external tabular source as seen through
`SpreadsheetApp.openById(..).getSheetByName(..)`: opening can raise
(`unavailable`), the sheet can be `missing` (`getSheetByName` returns
`null`), or it yields rows of `(tag column cell, email-domain column cell)`
with `""` for an empty cell; `getLastRow() == 0` corresponds to `rows = []`. -/
inductive Sheet : Type
  | unavailable
  | missing
  | table (rows : List (String × String))
deriving DecidableEq, Repr

/-! ## Tag catalog resolver (`getUserTags`, `fetchTagsFromSpreadsheet`) -/

/-- `DEFAULT_USER_TAGS` from the source head. -/
def DEFAULT_USER_TAGS : List String :=
  ["#Work", "#Personal", "#Internal_Meeting", "#External_Meeting"]

/-- Normalization `cell.startsWith('#') ? cell : '#' + cell` applied to a
non-empty cell. -/
def normTag (t : String) : String :=
  if t.data.take 1 == ['#'] then t else "#" ++ t

/-- The three-field configuration guard of `fetchTagsFromSpreadsheet`. -/
def configTagsOK (p : Props) : Bool :=
  truthy p.spreadsheetId && truthy p.sheetName && truthy p.column

/-- `fetchTagsFromSpreadsheet` (source lines 680-727): non-empty tag-column
cells, `#`-normalized, deduplicated keeping first occurrence; every error
path (missing configuration, unopenable spreadsheet, missing sheet, empty
sheet) returns `[]`. -/
def fetchTagsFromSpreadsheet (p : Props) (sh : Sheet) : List String :=
  if configTagsOK p = false then []
  else
    match sh with
    | Sheet.unavailable => []
    | Sheet.missing => []
    | Sheet.table rows =>
      if rows.isEmpty then []
      else dedupFirst (rows.filterMap (fun r => if r.1 = "" then none else some (normTag r.1)))

/-- `getUserTags` (source lines 651-673).  On memoization miss it combines
`DEFAULT_USER_TAGS` with the spreadsheet tags and deduplicates with a JS
`Set` (keeping first occurrences).  The memoization write-back stores
exactly the returned list, so the durable state is not modelled here. -/
def getUserTags (p : Props) (sh : Sheet) : List String :=
  match p.userTags with
  | some ts => ts
  | none => dedupFirst (DEFAULT_USER_TAGS ++ fetchTagsFromSpreadsheet p sh)

/-! ## Auto-tag deriver -/

/-- JS regex `\w`: `[A-Za-z0-9_]`. -/
def isWordChar (c : Char) : Bool := c.isAlpha || c.isDigit || c = '_'

/-- All matches of the regex `/#\w+/g` over the title, in order.  The
regex matches a `#` followed by a maximal non-empty word-character run and
resumes after the run; since a run never contains `#`, scanning every
position for a `#` followed by a word character yields the same matches. -/
def tagTokens : List Char → List String
  | [] => []
  | c :: cs =>
    if c = '#' then
      match cs.takeWhile isWordChar with
      | [] => tagTokens cs
      | run => String.mk ('#' :: run) :: tagTokens cs
    else tagTokens cs

/-- `extractTagFromTitle` (source lines 392-413), with the catalog
(`getUserTags()` in the source) passed explicitly: for each `#word` token
of the title in order, the first catalog tag equal to it case-insensitively,
unmatched tokens dropped.  A `null` or `""` title short-circuits to `[]`. -/
def extractTagFromTitle (catalog : List String) (title : Option String) : List String :=
  match title with
  | none => []
  | some t =>
    if t = "" then []
    else (tagTokens t.data).filterMap
      (fun tok => catalog.find? (fun tag => lowerS tag == lowerS tok))

/-- JS `email.split('@')[1]`: the segment between the first `@` and the
next one (or the end); `none` when the email has no `@` (the JS value is
then `undefined`, which no sheet cell compares equal to). -/
def emailDomain (e : String) : Option String :=
  match e.data.dropWhile (fun c => c != '@') with
  | [] => none
  | _ :: rest => some (String.mk (rest.takeWhile (fun c => c != '@')))

/-- Tag cell of a matched row: `tagData[i][0] ? normalize : null`. -/
def rowTag (cell : String) : Option String :=
  if cell = "" then none else some (normTag cell)

/-- The nested attendee/row loops of `getAutoTagFromAttendees` (source
lines 623-637): attendees outermost; for the first attendee with a truthy
email, a defined domain and a matching row, the first matching row's
normalized tag is returned immediately — even when that tag cell is empty
and the result is therefore `null`. -/
def scanAttendees (rows : List (String × String)) : List Attendee → Option String
  | [] => none
  | a :: rest =>
    if a.email = "" then scanAttendees rows rest
    else
      match emailDomain a.email with
      | none => scanAttendees rows rest
      | some d =>
        match rows.find? (fun r => r.2 == d) with
        | none => scanAttendees rows rest
        | some r => rowTag r.1

/-- `getAutoTagFromAttendees` (source lines 588-644).  Missing
configuration, an unopenable spreadsheet, a missing sheet and an empty
sheet all yield `none`; the exception raised by `openById` is caught by
the source's surrounding `try`. -/
def getAutoTagFromAttendees (p : Props) (sh : Sheet) (attendees : List Attendee) : Option String :=
  if truthy p.emailDomainColumn = false then none
  else if (truthy p.spreadsheetId && truthy p.sheetName && truthy p.column) = false then none
  else
    match sh with
    | Sheet.unavailable => none
    | Sheet.missing => none
    | Sheet.table rows =>
      if rows.isEmpty then none else scanAttendees rows attendees

/-! ## Staging cache reads -/

/-- Set content of a staged payload as `handleTagClick` computes it:
`new Set(JSON.parse(userCache.get(k)))` with the whole expression inside
`try`, so a malformed payload (parse throws) is caught and treated as the
empty set, and a missing slot gives `new Set(null)`, also empty. -/
def contentOf : Option CacheVal → List String
  | some (CacheVal.list ts) => dedupFirst ts
  | some CacheVal.malformed => []
  | none => []

/-- `loadSelectedTags` (source lines 108-130): for an existing event,
read the `selectedTags` private extension field of the remote record; a
failing fetch, an absent field, or a field whose parse throws (caught by
the surrounding `try`) all give the empty set. -/
def loadSelectedTags (remote : List (String × Event)) (eventId : Option String) : List String :=
  match eventId with
  | none => []
  | some eid =>
    if eid = "" then []
    else
      match lookupA remote eid with
      | none => []
      | some ev =>
        match ev.tagsProp with
        | some (CacheVal.list ts) => dedupFirst ts
        | some CacheVal.malformed => []
        | none => []

/-! ## Event-open handler (`onCalendarEventOpen`) -/

/-- Renderable outcome of the open handler. -/
inductive OpenResult : Type
  | errCard (msg : String)
  | dialog (tags : List String) (cacheKey : String) (title : Option String)
deriving DecidableEq, Repr

/-- Observable state after `onCalendarEventOpen`: the card returned, the
staged entries, and the `calendarId` cache slot. -/
structure OpenOut : Type where
  result : OpenResult
  staged : List (String × CacheVal)
  calendarStored : Option String
deriving DecidableEq, Repr

/-- Environment read by the open handler. -/
structure OpenEnv : Type where
  props : Props
  sheet : Sheet
  remote : List (String × Event)
  staged : List (String × CacheVal)
  calendarSlot : Option String
deriving DecidableEq, Repr

/-- The TagSet seeded by the open handler on a staging-cache miss (source
lines 68-92): the tags loaded from the remote record, united with the
title-extraction results only when the event is new or the loaded set is
empty, then with the attendee auto-tag (derived unconditionally) added
when one exists. -/
def seedTags (env : OpenEnv) (eid2 : Option String) (title : Option String)
    (attendees : List Attendee) : List String :=
  let loaded := loadSelectedTags env.remote eid2
  let tags1 :=
    if eid2 = none ∨ loaded = [] then
      unionSet loaded (extractTagFromTitle (getUserTags env.props env.sheet) title)
    else loaded
  match getAutoTagFromAttendees env.props env.sheet attendees with
  | some t => addSet tags1 t
  | none => tags1

/-- `onCalendarEventOpen` (source lines 30-98).  The fetch of the opened
event is a remote lookup; a failing fetch downgrades the open to a
new-event open (`eventId = null`).  The staged-cache read
`JSON.parse(userCache.get(cacheKey))` at line 66 is *not* guarded by any
`try`, so a malformed staged payload propagates as an exception
(`Except.error`).  On a cache miss the entry is seeded by `seedTags` and
written back; for a new event whose attendee lookup produced a tag, that
tag is also prepended to the display title. -/
def onCalendarEventOpen (env : OpenEnv) (calendarIdIn eventIdIn : Option String)
    (uuid : String) : Except Unit OpenOut :=
  let fetched : Option Event :=
    match eventIdIn with
    | some id => if id = "" then none else lookupA env.remote id
    | none => none
  let eid2 : Option String :=
    match eventIdIn with
    | some id => if id ≠ "" ∧ (lookupA env.remote id).isSome then some id else none
    | none => none
  let eventTitle : Option String := fetched.bind Event.summary
  let attendees : List Attendee := (fetched.map Event.attendees).getD []
  if truthy calendarIdIn = false then
    Except.ok
      { result := OpenResult.errCard "Calendar ID is not available. Please try again later."
        staged := env.staged
        calendarStored := env.calendarSlot }
  else
    let cacheKey : String :=
      match eid2 with
      | some id => "selectedTags_" ++ id
      | none => "selectedTags_new_" ++ uuid
    match lookupA env.staged cacheKey with
    | some CacheVal.malformed => Except.error ()
    | some (CacheVal.list ts) =>
      Except.ok
        { result := OpenResult.dialog (dedupFirst ts) cacheKey eventTitle
          staged := env.staged
          calendarStored := calendarIdIn }
    | none =>
      let tags2 := seedTags env eid2 eventTitle attendees
      let title2 :=
        match eid2, getAutoTagFromAttendees env.props env.sheet attendees with
        | none, some t => some (trimS (t ++ " " ++ eventTitle.getD ""))
        | _, _ => eventTitle
      Except.ok
        { result := OpenResult.dialog tags2 cacheKey title2
          staged := setA env.staged cacheKey (CacheVal.list tags2)
          calendarStored := calendarIdIn }

/-! ## Toggle handler (`handleTagClick`, `pushModifiedEvent`) -/

/-- Card outcome of a toggle. -/
inductive ClickResult : Type
  | errCard (msg : String)
  | updated (tags : List String)
deriving DecidableEq, Repr

/-- Mutable state touched by a toggle. -/
structure ClickState : Type where
  staged : List (String × CacheVal)
  modifiedEvents : Option (List (String × String))
deriving DecidableEq, Repr

/-- `pushModifiedEvent` (source lines 266-279): read the `ModifiedEvents`
object (`JSON.parse(..) || {}`), mark the key `"Dirty"`, write back. -/
def pushModifiedEvent (me : Option (List (String × String))) (cacheKey : String) :
    List (String × String) :=
  setA (me.getD []) cacheKey "Dirty"

/-- The toggle step
`selectedTags.has(t) ? selectedTags.delete(t) : selectedTags.add(t)`
on the set as a duplicate-free list (`Set.delete` removes the element,
`Set.add` appends it). -/
def toggleList (l : List String) (clickedTag : String) : List String :=
  if l.contains clickedTag then l.filter (fun t => t != clickedTag)
  else l ++ [clickedTag]

/-- `handleTagClick` (source lines 153-189).  A missing (or empty, hence
falsy) `cacheKey` parameter yields the error card.  The staged parse is
inside `try`, so a malformed payload is treated as the empty set.  The
toggled set is written back and the key marked Dirty. -/
def handleTagClick (st : ClickState) (cacheKeyParam : Option String) (clickedTag : String) :
    ClickResult × ClickState :=
  match cacheKeyParam with
  | none => (ClickResult.errCard "Cache Key is missing.", st)
  | some ck =>
    if ck = "" then (ClickResult.errCard "Cache Key is missing.", st)
    else
      let toggled := toggleList (contentOf (lookupA st.staged ck)) clickedTag
      (ClickResult.updated toggled,
        { staged := setA st.staged ck (CacheVal.list toggled)
          modifiedEvents := some (pushModifiedEvent st.modifiedEvents ck) })

/-! ## Synchronization engine (`saveTagsFromCache`) -/

/-- State threaded through one flush pass: the in-memory `ModifiedEvents`
object, the staged cache entries, and the remote store. -/
structure MidState : Type where
  stack : List (String × String)
  staged : List (String × CacheVal)
  remote : List (String × Event)
deriving DecidableEq, Repr

/-- Observable state of the engine around a pass.  `modifiedEvents` is the
parse outcome of the `ModifiedEvents` cache slot, `calendarId` the
side-channel slot stored by the most recent open. -/
structure EngineState : Type where
  modifiedEvents : Option (List (String × String))
  calendarId : Option String
  staged : List (String × CacheVal)
  remote : List (String × Event)
deriving DecidableEq, Repr

/-- `JSON.parse(userCache.get(cacheKey))` at source line 310, *outside*
the per-key `try`: a malformed payload throws out of the whole pass; a
missing slot parses to `null` (falsy, so the key is skipped); a stored
array is used as-is. -/
def parseTags : Option CacheVal → Except Unit (Option (List String))
  | none => Except.ok none
  | some (CacheVal.list ts) => Except.ok (some ts)
  | some CacheVal.malformed => Except.error ()

/-- Event id derived from a staging key: `cacheKey.substring('selectedTags_'.length)`. -/
def eidOf (k : String) : String := dropS k 13

/-- The new-event key discriminator `cacheKey.startsWith('selectedTags_new_')`. -/
def isNewKey (k : String) : Bool := startsWithS k "selectedTags_new_"

/-- One iteration of the flush loop (source lines 305-351) on key `k`.
`uf eid = true` means `Calendar.Events.update` raises for that event (the
raise is caught by the per-key `try`); a remote id absent from `remote`
makes `Calendar.Events.get` raise (also caught).  Only the unguarded
staged-payload parse can escape as `Except.error`. -/
def processKey (uf : String → Bool) (ms : MidState) (k : String) : Except MidState MidState :=
  if lookupA ms.stack k = some "Dirty" then
    let eventId : Option String := if isNewKey k then none else some (eidOf k)
    match parseTags (lookupA ms.staged k) with
    | Except.error _ => Except.error ms
    | Except.ok none => Except.ok ms
    | Except.ok (some ts) =>
      match eventId with
      | none => Except.ok ms
      | some eid =>
        match lookupA ms.remote eid with
        | none => Except.ok ms
        | some ev =>
          if uf eid then Except.ok ms
          else
            Except.ok
              { stack := setA ms.stack k "Clean"
                staged := removeA ms.staged k
                remote := setA ms.remote eid { ev with tagsProp := some (CacheVal.list ts) } }
  else Except.ok ms

/-- The flush loop over the keys of the `ModifiedEvents` object, in
insertion order. -/
def processKeys (uf : String → Bool) : MidState → List String → Except MidState MidState
  | ms, [] => Except.ok ms
  | ms, k :: ks =>
    match processKey uf ms k with
    | Except.error e => Except.error e
    | Except.ok ms1 => processKeys uf ms1 ks

/-- `saveTagsFromCache` (source lines 284-356).  A missing `ModifiedEvents`
slot or a falsy `calendarId` slot makes the pass a no-op.  On normal
completion the mutated stack is written back (`modifiedEvents`); when an
exception escapes the loop, the write-back at line 354 never runs, so the
persisted stack stays what it was, while staged-cache removals and remote
updates made by earlier iterations persist. -/
def saveTagsFromCache (uf : String → Bool) (st : EngineState) :
    Except EngineState EngineState :=
  match st.modifiedEvents with
  | none => Except.ok st
  | some stack =>
    if truthy st.calendarId = false then Except.ok st
    else
      match processKeys uf { stack := stack, staged := st.staged, remote := st.remote }
          (keysOf stack) with
      | Except.ok ms =>
        Except.ok
          { modifiedEvents := some ms.stack
            calendarId := st.calendarId
            staged := ms.staged
            remote := ms.remote }
      | Except.error ms =>
        Except.error
          { modifiedEvents := st.modifiedEvents
            calendarId := st.calendarId
            staged := ms.staged
            remote := ms.remote }

/-- Observable state after one scheduled invocation of the engine,
whether or not a JS exception escaped it (the scheduler re-fires either
way). -/
def runPass (uf : String → Bool) (st : EngineState) : EngineState :=
  match saveTagsFromCache uf st with
  | Except.ok s => s
  | Except.error s => s

/-- `n` scheduled invocations of the engine. -/
def runPasses (uf : String → Bool) : Nat → EngineState → EngineState
  | 0, st => st
  | n + 1, st => runPasses uf n (runPass uf st)

/-- Dirty/Clean status of a key as persisted in the `ModifiedEvents` slot. -/
def dirtyStatus (st : EngineState) (k : String) : Option String :=
  match st.modifiedEvents with
  | some stack => lookupA stack k
  | none => none

/-- Remote extension-field tag payload of an event, when the event exists. -/
def remoteTags (st : EngineState) (eid : String) : Option (Option CacheVal) :=
  (lookupA st.remote eid).map Event.tagsProp

/-! ## Classification of Dirty keys for one pass -/

/-- A Dirty key the pass can flush: an existing-event key with a live
parseable staged entry, an existing remote record, and a non-raising
update. -/
def ClassA (uf : String → Bool) (ms : MidState) (k : String) : Prop :=
  isNewKey k = false ∧ (∃ ts, lookupA ms.staged k = some (CacheVal.list ts)) ∧
    (∃ ev, lookupA ms.remote (eidOf k) = some ev) ∧ uf (eidOf k) = false

/-- A Dirty existing-event key whose flush fails remotely: the fetch
raises (record absent) or the update raises. -/
def ClassB (uf : String → Bool) (ms : MidState) (k : String) : Prop :=
  isNewKey k = false ∧ (∃ ts, lookupA ms.staged k = some (CacheVal.list ts)) ∧
    (lookupA ms.remote (eidOf k) = none ∨ uf (eidOf k) = true)

/-- A Dirty unsaved-event key whose staged payload does not make the
unguarded parse throw. -/
def ClassC (ms : MidState) (k : String) : Prop :=
  isNewKey k = true ∧ lookupA ms.staged k ≠ some CacheVal.malformed

/-! ## Concrete states used by witnesses and counterexamples -/

/-- An update function under which no remote update raises. -/
def ufNone : String → Bool := fun _ => false

/-- A remote event with no tag payload. -/
def evPlain : Event := { summary := some "Standup", attendees := [], tagsProp := none }

/-- Engine state for the flush-convergence witness: two Dirty
existing-event keys, both staged and remotely present. -/
def stC1 : EngineState :=
  { modifiedEvents := some [("selectedTags_e1", "Dirty"), ("selectedTags_e2", "Dirty")]
    calendarId := some "cal"
    staged := [("selectedTags_e1", CacheVal.list ["#Work"]),
               ("selectedTags_e2", CacheVal.list ["#Personal", "#Work"])]
    remote := [("e1", evPlain), ("e2", evPlain)] }

/-- Engine state for the partial-failure witness: three Dirty keys whose
middle target (`k2`) is missing remotely, so its fetch raises. -/
def stC2 : EngineState :=
  { modifiedEvents := some [("selectedTags_k1", "Dirty"), ("selectedTags_k2", "Dirty"),
                            ("selectedTags_k3", "Dirty")]
    calendarId := some "cal"
    staged := [("selectedTags_k1", CacheVal.list ["#A"]),
               ("selectedTags_k2", CacheVal.list ["#B"]),
               ("selectedTags_k3", CacheVal.list ["#C"])]
    remote := [("k1", evPlain), ("k3", evPlain)] }

/-- Engine state for the new-event-exclusion witness: one Dirty
unsaved-event key. -/
def stC3 : EngineState :=
  { modifiedEvents := some [("selectedTags_new_u1", "Dirty")]
    calendarId := some "cal"
    staged := [("selectedTags_new_u1", CacheVal.list ["#X"])]
    remote := [] }

/-- Engine state whose single Dirty key has a staged payload that does not
parse. -/
def stC4 : EngineState :=
  { modifiedEvents := some [("selectedTags_bad", "Dirty")]
    calendarId := some "cal"
    staged := [("selectedTags_bad", CacheVal.malformed)]
    remote := [] }

/-- User properties with the spreadsheet source fully configured and the
catalog memoized. -/
def propsFull : Props :=
  { spreadsheetId := some "S", sheetName := some "Sheet1", column := some "A"
    emailDomainColumn := some "B", userTags := some DEFAULT_USER_TAGS }

/-- Open-handler environment whose staged entry for event `e1` is
malformed. -/
def envC4 : OpenEnv :=
  { props := propsFull, sheet := Sheet.missing
    remote := [("e1", evPlain)]
    staged := [("selectedTags_e1", CacheVal.malformed)]
    calendarSlot := none }

/-- Click state for the toggle-pair counterexample: a staged entry whose
key is absent from the Dirty index. -/
def stC5 : ClickState :=
  { staged := [("selectedTags_e5", CacheVal.list [])], modifiedEvents := none }

/-- Open-handler environment for the initialization counterexample: the
remote record already carries the persisted tag `#Work`, while its
attendee domain maps to `Sales` in the configured sheet. -/
def envC6 : OpenEnv :=
  { props := propsFull
    sheet := Sheet.table [("Sales", "example.com")]
    remote := [("e1", { summary := some "Standup"
                        attendees := [{ email := "a@example.com" }]
                        tagsProp := some (CacheVal.list ["#Work"]) })]
    staged := []
    calendarSlot := none }

/-- Dirty/Clean status of a key as seen after a toggle. -/
def statusInClick (st : ClickState) (k : String) : Option String :=
  match st.modifiedEvents with
  | some s => lookupA s k
  | none => none

/-- Whether an entry point returned normally (no JS exception escaped). -/
def isOkE {ε α : Type} : Except ε α → Bool
  | Except.ok _ => true
  | Except.error _ => false

/-- Tags rendered by a successful open (empty for an error card or an
escaped exception). -/
def shownTags : Except Unit OpenOut → List String
  | Except.ok out =>
    match out.result with
    | OpenResult.dialog tags _ _ => tags
    | OpenResult.errCard _ => []
  | Except.error _ => []

/-! ## Store lemmas -/

theorem lookupA_setA_self {α : Type} (l : List (String × α)) (k : String) (v : α) :
    lookupA (setA l k v) k = some v := by
  induction l with
  | nil => simp [setA, lookupA]
  | cons hd tl ih =>
    obtain ⟨a, b⟩ := hd
    by_cases h : a = k
    · subst h
      simp [setA, lookupA]
    · simp [setA, lookupA, h, ih]

theorem lookupA_setA_ne {α : Type} (l : List (String × α)) (k k' : String) (v : α)
    (h : k' ≠ k) : lookupA (setA l k v) k' = lookupA l k' := by
  induction l with
  | nil => simp [setA, lookupA, Ne.symm h]
  | cons hd tl ih =>
    obtain ⟨a, b⟩ := hd
    by_cases ha : a = k
    · subst ha
      simp [setA, lookupA, Ne.symm h]
    · by_cases ha' : a = k'
      · subst ha'
        simp [setA, lookupA, ha]
      · simp [setA, lookupA, ha, ha', ih]

theorem lookupA_removeA_self {α : Type} (l : List (String × α)) (k : String) :
    lookupA (removeA l k) k = none := by
  induction l with
  | nil => simp [removeA, lookupA]
  | cons hd tl ih =>
    obtain ⟨a, b⟩ := hd
    by_cases h : a = k
    · simp [removeA, h, ih]
    · simp [removeA, lookupA, h, ih]

theorem lookupA_removeA_ne {α : Type} (l : List (String × α)) (k k' : String)
    (h : k' ≠ k) : lookupA (removeA l k) k' = lookupA l k' := by
  induction l with
  | nil => simp [removeA, lookupA]
  | cons hd tl ih =>
    obtain ⟨a, b⟩ := hd
    by_cases ha : a = k
    · subst ha
      rw [removeA, if_pos rfl, ih, lookupA, if_neg (Ne.symm h)]
    · rw [removeA, if_neg ha, lookupA, lookupA, ih]

theorem keysOf_cons {α : Type} (a : String) (b : α) (tl : List (String × α)) :
    keysOf ((a, b) :: tl) = a :: keysOf tl := rfl

theorem mem_keysOf_setA {α : Type} (l : List (String × α)) (k x : String) (v : α) :
    x ∈ keysOf (setA l k v) ↔ x ∈ keysOf l ∨ x = k := by
  induction l with
  | nil => simp [setA, keysOf]
  | cons hd tl ih =>
    obtain ⟨a, b⟩ := hd
    by_cases h : a = k
    · subst h
      rw [setA, if_pos rfl, keysOf_cons, keysOf_cons]
      simp only [List.mem_cons]
      tauto
    · rw [setA, if_neg h, keysOf_cons, keysOf_cons]
      simp only [List.mem_cons, ih]
      tauto

theorem nodup_keysOf_setA {α : Type} (l : List (String × α)) (k : String) (v : α)
    (h : (keysOf l).Nodup) : (keysOf (setA l k v)).Nodup := by
  induction l with
  | nil => simp [setA, keysOf]
  | cons hd tl ih =>
    obtain ⟨a, b⟩ := hd
    rw [keysOf_cons, List.nodup_cons] at h
    by_cases ha : a = k
    · subst ha
      rw [setA, if_pos rfl, keysOf_cons, List.nodup_cons]
      exact h
    · rw [setA, if_neg ha, keysOf_cons, List.nodup_cons]
      refine ⟨?_, ih h.2⟩
      intro hmem
      rcases (mem_keysOf_setA tl k a v).mp hmem with hh | hh
      · exact h.1 hh
      · exact ha hh

theorem lookupA_eq_none_of_not_mem {α : Type} (l : List (String × α)) (k : String)
    (h : k ∉ keysOf l) : lookupA l k = none := by
  induction l with
  | nil => simp [lookupA]
  | cons hd tl ih =>
    obtain ⟨a, b⟩ := hd
    rw [keysOf_cons, List.mem_cons] at h
    push_neg at h
    rw [lookupA, if_neg (fun hh => h.1 hh.symm)]
    exact ih h.2

/-! ## Dedup and set lemmas -/

theorem dedupFirstAux_cons_mem (seen : List String) (hd : String) (tl : List String)
    (h : hd ∈ seen) : dedupFirstAux seen (hd :: tl) = dedupFirstAux seen tl := by
  have hb : seen.contains hd = true := by simpa using h
  simp only [dedupFirstAux]
  rw [if_pos hb]

theorem dedupFirstAux_cons_not_mem (seen : List String) (hd : String) (tl : List String)
    (h : hd ∉ seen) : dedupFirstAux seen (hd :: tl) = hd :: dedupFirstAux (hd :: seen) tl := by
  have hb : ¬ seen.contains hd = true := by simpa using h
  simp only [dedupFirstAux]
  rw [if_neg hb]

theorem mem_dedupFirstAux (seen l : List String) (x : String) :
    x ∈ dedupFirstAux seen l ↔ x ∈ l ∧ x ∉ seen := by
  induction l generalizing seen with
  | nil => simp [dedupFirstAux]
  | cons hd tl ih =>
    by_cases hm : hd ∈ seen
    · rw [dedupFirstAux_cons_mem _ _ _ hm, ih]
      constructor
      · rintro ⟨h1, h2⟩
        exact ⟨List.mem_cons_of_mem _ h1, h2⟩
      · rintro ⟨h1, h2⟩
        rcases List.mem_cons.mp h1 with rfl | h1
        · exact absurd hm h2
        · exact ⟨h1, h2⟩
    · rw [dedupFirstAux_cons_not_mem _ _ _ hm, List.mem_cons]
      constructor
      · rintro (rfl | hmem)
        · exact ⟨List.mem_cons_self _ _, hm⟩
        · obtain ⟨h1, h2⟩ := (ih (hd :: seen)).mp hmem
          exact ⟨List.mem_cons_of_mem _ h1,
            fun hc => h2 (List.mem_cons_of_mem _ hc)⟩
      · rintro ⟨h1, h2⟩
        by_cases hxhd : x = hd
        · exact Or.inl hxhd
        · right
          rw [ih]
          rcases List.mem_cons.mp h1 with rfl | h1
          · exact absurd rfl hxhd
          · refine ⟨h1, ?_⟩
            intro hc
            rcases List.mem_cons.mp hc with rfl | hc
            · exact hxhd rfl
            · exact h2 hc

theorem nodup_dedupFirstAux (seen l : List String) : (dedupFirstAux seen l).Nodup := by
  induction l generalizing seen with
  | nil => simp [dedupFirstAux]
  | cons hd tl ih =>
    by_cases hm : hd ∈ seen
    · rw [dedupFirstAux_cons_mem _ _ _ hm]
      exact ih seen
    · rw [dedupFirstAux_cons_not_mem _ _ _ hm, List.nodup_cons]
      refine ⟨?_, ih (hd :: seen)⟩
      intro hmem
      exact ((mem_dedupFirstAux _ _ _).mp hmem).2 (List.mem_cons_self _ _)

theorem sublist_dedupFirstAux (seen l : List String) : (dedupFirstAux seen l).Sublist l := by
  induction l generalizing seen with
  | nil => simp [dedupFirstAux]
  | cons hd tl ih =>
    by_cases hm : hd ∈ seen
    · rw [dedupFirstAux_cons_mem _ _ _ hm]
      exact (ih seen).cons hd
    · rw [dedupFirstAux_cons_not_mem _ _ _ hm]
      exact (ih (hd :: seen)).cons₂ hd

theorem dedupFirstAux_eq_self (l : List String) :
    ∀ seen, l.Nodup → (∀ x ∈ l, x ∉ seen) → dedupFirstAux seen l = l := by
  induction l with
  | nil => intro seen _ _; simp [dedupFirstAux]
  | cons hd tl ih =>
    intro seen hnd hdisj
    have hm : hd ∉ seen := hdisj hd (List.mem_cons_self _ _)
    rw [dedupFirstAux_cons_not_mem _ _ _ hm]
    congr 1
    refine ih (hd :: seen) (List.Nodup.of_cons hnd) ?_
    intro x hx
    intro hc
    rcases List.mem_cons.mp hc with rfl | hc
    · exact (List.nodup_cons.mp hnd).1 hx
    · exact hdisj x (List.mem_cons_of_mem _ hx) hc

theorem mem_dedupFirst (l : List String) (x : String) : x ∈ dedupFirst l ↔ x ∈ l := by
  simp [dedupFirst, mem_dedupFirstAux]

theorem nodup_dedupFirst (l : List String) : (dedupFirst l).Nodup :=
  nodup_dedupFirstAux [] l

theorem dedupFirst_eq_self (l : List String) (hnd : l.Nodup) : dedupFirst l = l :=
  dedupFirstAux_eq_self l [] hnd (by simp)

theorem firstIdx_lt_of_aux (l : List String) :
    ∀ seen, (dedupFirstAux seen l).Pairwise (fun a b => firstIdx l a < firstIdx l b) := by
  induction l with
  | nil => intro seen; simp [dedupFirstAux]
  | cons hd tl ih =>
    intro seen
    have lift : ∀ seen', hd ∈ seen' → (dedupFirstAux seen' tl).Pairwise
        (fun a b => firstIdx (hd :: tl) a < firstIdx (hd :: tl) b) := by
      intro seen' hmem
      refine List.Pairwise.imp_of_mem ?_ (ih seen')
      intro a b ha hb hab
      have hane : a ≠ hd := by
        intro hh
        exact ((mem_dedupFirstAux _ _ _).mp ha).2 (hh ▸ hmem)
      have hbne : b ≠ hd := by
        intro hh
        exact ((mem_dedupFirstAux _ _ _).mp hb).2 (hh ▸ hmem)
      rw [firstIdx, if_neg (fun hh => hane hh.symm)]
      rw [firstIdx, if_neg (fun hh => hbne hh.symm)]
      omega
    by_cases hm : hd ∈ seen
    · rw [dedupFirstAux_cons_mem _ _ _ hm]
      exact lift seen hm
    · rw [dedupFirstAux_cons_not_mem _ _ _ hm]
      refine List.Pairwise.cons ?_ (lift (hd :: seen) (List.mem_cons_self _ _))
      intro b hb
      have hbne : b ≠ hd := by
        intro hh
        exact ((mem_dedupFirstAux _ _ _).mp hb).2 (hh ▸ List.mem_cons_self _ _)
      rw [firstIdx, if_pos rfl, firstIdx, if_neg (fun hh => hbne hh.symm)]
      omega

theorem firstIdx_order_dedupFirst (l : List String) :
    (dedupFirst l).Pairwise (fun a b => firstIdx l a < firstIdx l b) :=
  firstIdx_lt_of_aux l []

theorem dedupFirstAux_append_of_fresh (d : List String) :
    ∀ (seen s : List String), d.Nodup → (∀ x ∈ d, x ∉ seen) →
    dedupFirstAux seen (d ++ s) = d ++ dedupFirstAux (d.reverse ++ seen) s := by
  induction d with
  | nil => intro seen s _ _; simp
  | cons hd tl ih =>
    intro seen s hnd hfresh
    have hm : hd ∉ seen := hfresh hd (List.mem_cons_self _ _)
    rw [List.cons_append, dedupFirstAux_cons_not_mem _ _ _ hm]
    rw [ih (hd :: seen) s (List.Nodup.of_cons hnd) ?_]
    · simp
    · intro x hx hc
      rcases List.mem_cons.mp hc with rfl | hc
      · exact (List.nodup_cons.mp hnd).1 hx
      · exact hfresh x (List.mem_cons_of_mem _ hx) hc

theorem mem_addSet (l : List String) (x t : String) :
    t ∈ addSet l x ↔ t ∈ l ∨ t = x := by
  by_cases h : x ∈ l
  · have hb : l.contains x = true := by simpa using h
    rw [addSet, if_pos hb]
    constructor
    · exact Or.inl
    · rintro (ht | rfl)
      · exact ht
      · exact h
  · have hb : l.contains x = false := by simpa using h
    rw [addSet]
    rw [hb]
    simp

theorem nodup_addSet (l : List String) (x : String) (h : l.Nodup) : (addSet l x).Nodup := by
  by_cases hc : x ∈ l
  · have hb : l.contains x = true := by simpa using hc
    rw [addSet, if_pos hb]
    exact h
  · have hb : l.contains x = false := by simpa using hc
    rw [addSet]
    rw [hb]
    simp [List.nodup_append, h, hc]

theorem mem_unionSet (xs : List String) :
    ∀ (l : List String) (t : String), t ∈ unionSet l xs ↔ t ∈ l ∨ t ∈ xs := by
  induction xs with
  | nil => intro l t; simp [unionSet]
  | cons hd tl ih =>
    intro l t
    have : unionSet l (hd :: tl) = unionSet (addSet l hd) tl := rfl
    rw [this, ih (addSet l hd) t, mem_addSet, List.mem_cons]
    tauto

theorem nodup_unionSet (xs : List String) :
    ∀ l : List String, l.Nodup → (unionSet l xs).Nodup := by
  induction xs with
  | nil => intro l h; exact h
  | cons hd tl ih =>
    intro l h
    exact ih (addSet l hd) (nodup_addSet l hd h)

/-! ## Key-derivation lemmas -/

theorem startsWithS_take (s p : String) (h : startsWithS s p = true) :
    s.data.take p.data.length = p.data := by
  simpa [startsWithS] using h

theorem eidOf_inj (a b : String)
    (ha : startsWithS a "selectedTags_" = true)
    (hb : startsWithS b "selectedTags_" = true)
    (h : eidOf a = eidOf b) : a = b := by
  have hlen : ("selectedTags_").data.length = 13 := by decide
  have hta := startsWithS_take a _ ha
  have htb := startsWithS_take b _ hb
  rw [hlen] at hta htb
  have hdrop : a.data.drop 13 = b.data.drop 13 := by
    have := congrArg String.data h
    simpa [eidOf, dropS] using this
  have : a.data = b.data := by
    calc a.data = a.data.take 13 ++ a.data.drop 13 := (List.take_append_drop _ _).symm
    _ = b.data.take 13 ++ b.data.drop 13 := by rw [hta, htb, hdrop]
    _ = b.data := List.take_append_drop _ _
  calc a = String.mk a.data := rfl
  _ = String.mk b.data := by rw [this]
  _ = b := rfl

theorem newKey_startsWith (k : String) (h : isNewKey k = true) :
    startsWithS k "selectedTags_" = true := by
  have h17 := startsWithS_take k _ (by simpa [isNewKey] using h)
  have hlen17 : ("selectedTags_new_").data.length = 17 := by decide
  rw [hlen17] at h17
  have : k.data.take 13 = ("selectedTags_").data := by
    have h13 : ("selectedTags_new_").data.take 13 = ("selectedTags_").data := by decide
    calc k.data.take 13 = (k.data.take 17).take 13 := by
          rw [List.take_take]
          norm_num
    _ = ("selectedTags_").data := by rw [h17]; exact h13
  simp [startsWithS, this]

theorem mem_keysOf_of_lookupA {α : Type} (l : List (String × α)) (k : String) (v : α)
    (h : lookupA l k = some v) : k ∈ keysOf l := by
  induction l with
  | nil => simp [lookupA] at h
  | cons hd tl ih =>
    obtain ⟨a, b⟩ := hd
    rw [lookupA] at h
    by_cases ha : a = k
    · subst ha
      exact List.mem_cons_self _ _
    · rw [if_neg ha] at h
      exact List.mem_cons_of_mem _ (ih h)

/-! ## Per-key behaviour of the flush loop -/

theorem processKey_not_dirty (uf : String → Bool) (ms : MidState) (k : String)
    (h : lookupA ms.stack k ≠ some "Dirty") : processKey uf ms k = Except.ok ms := by
  simp [processKey, h]

theorem processKey_no_staged (uf : String → Bool) (ms : MidState) (k : String)
    (hst : lookupA ms.staged k = none) : processKey uf ms k = Except.ok ms := by
  by_cases hd : lookupA ms.stack k = some "Dirty"
  · simp [processKey, hd, hst, parseTags]
  · exact processKey_not_dirty uf ms k hd

theorem processKey_newkey (uf : String → Bool) (ms : MidState) (k : String)
    (hnew : isNewKey k = true) (hok : lookupA ms.staged k ≠ some CacheVal.malformed) :
    processKey uf ms k = Except.ok ms := by
  by_cases hd : lookupA ms.stack k = some "Dirty"
  · cases hst : lookupA ms.staged k with
    | none => simp [processKey, hd, hst, parseTags]
    | some cv =>
      cases cv with
      | list ts => simp [processKey, hd, hst, parseTags, hnew]
      | malformed => exact absurd hst hok
  · exact processKey_not_dirty uf ms k hd

theorem processKey_remote_missing (uf : String → Bool) (ms : MidState) (k : String) (ts : List String)
    (hnew : isNewKey k = false) (hst : lookupA ms.staged k = some (CacheVal.list ts))
    (hre : lookupA ms.remote (eidOf k) = none) : processKey uf ms k = Except.ok ms := by
  by_cases hd : lookupA ms.stack k = some "Dirty"
  · simp [processKey, hd, hst, parseTags, hnew, hre]
  · exact processKey_not_dirty uf ms k hd

theorem processKey_update_raises (uf : String → Bool) (ms : MidState) (k : String) (ts : List String)
    (hnew : isNewKey k = false) (hst : lookupA ms.staged k = some (CacheVal.list ts))
    (huf : uf (eidOf k) = true) : processKey uf ms k = Except.ok ms := by
  by_cases hd : lookupA ms.stack k = some "Dirty"
  · cases hre : lookupA ms.remote (eidOf k) with
    | none => simp [processKey, hd, hst, parseTags, hnew, hre]
    | some ev => simp [processKey, hd, hst, parseTags, hnew, hre, huf]
  · exact processKey_not_dirty uf ms k hd

theorem processKey_flush (uf : String → Bool) (ms : MidState) (k : String)
    (ts : List String) (ev : Event)
    (hd : lookupA ms.stack k = some "Dirty") (hnew : isNewKey k = false)
    (hst : lookupA ms.staged k = some (CacheVal.list ts))
    (hre : lookupA ms.remote (eidOf k) = some ev) (huf : uf (eidOf k) = false) :
    processKey uf ms k = Except.ok
      { stack := setA ms.stack k "Clean"
        staged := removeA ms.staged k
        remote := setA ms.remote (eidOf k) { ev with tagsProp := some (CacheVal.list ts) } } := by
  simp [processKey, hd, hst, parseTags, hnew, hre, huf]

theorem processKey_malformed (uf : String → Bool) (ms : MidState) (k : String)
    (hd : lookupA ms.stack k = some "Dirty")
    (hst : lookupA ms.staged k = some CacheVal.malformed) :
    processKey uf ms k = Except.error ms := by
  simp [processKey, hd, hst, parseTags]

/-! ## One full pass over the Dirty index -/

theorem processKeys_master (uf : String → Bool) (ks : List String) :
    ∀ ms : MidState, ks.Nodup →
    (∀ k ∈ ks, startsWithS k "selectedTags_" = true) →
    (∀ k ∈ ks, lookupA ms.stack k = some "Dirty" →
      ClassA uf ms k ∨ ClassB uf ms k ∨ ClassC ms k) →
    ∃ ms', processKeys uf ms ks = Except.ok ms' ∧
      (∀ k ∈ ks, lookupA ms.stack k = some "Dirty" →
        (ClassA uf ms k → lookupA ms'.stack k = some "Clean" ∧ lookupA ms'.staged k = none ∧
          ∀ ts, lookupA ms.staged k = some (CacheVal.list ts) →
            ∃ ev', lookupA ms'.remote (eidOf k) = some ev' ∧
              ev'.tagsProp = some (CacheVal.list ts)) ∧
        (ClassB uf ms k → lookupA ms'.stack k = some "Dirty" ∧
          lookupA ms'.staged k = lookupA ms.staged k ∧
          lookupA ms'.remote (eidOf k) = lookupA ms.remote (eidOf k)) ∧
        (ClassC ms k → lookupA ms'.stack k = some "Dirty" ∧
          lookupA ms'.staged k = lookupA ms.staged k)) ∧
      (∀ k', k' ∉ ks → lookupA ms'.stack k' = lookupA ms.stack k' ∧
        lookupA ms'.staged k' = lookupA ms.staged k') ∧
      (∀ eid, (∀ k ∈ ks, eid ≠ eidOf k) → lookupA ms'.remote eid = lookupA ms.remote eid) ∧
      ((keysOf ms.stack).Nodup → (keysOf ms'.stack).Nodup) := by
  induction ks with
  | nil =>
    intro ms _ _ _
    exact ⟨ms, rfl, by simp, fun k' _ => ⟨rfl, rfl⟩, fun eid _ => rfl, fun h => h⟩
  | cons k0 ks ih =>
    intro ms hnd hpf hcls
    have hk0nin : k0 ∉ ks := (List.nodup_cons.mp hnd).1
    have hnd' : ks.Nodup := (List.nodup_cons.mp hnd).2
    have hpf0 : startsWithS k0 "selectedTags_" = true := hpf k0 (List.mem_cons_self _ _)
    have hpf' : ∀ k ∈ ks, startsWithS k "selectedTags_" = true :=
      fun k hk => hpf k (List.mem_cons_of_mem _ hk)
    have hinj : ∀ k ∈ ks, eidOf k ≠ eidOf k0 := by
      intro k hk heq
      exact hk0nin (eidOf_inj k k0 (hpf' k hk) hpf0 heq ▸ hk)
    by_cases hd0 : lookupA ms.stack k0 = some "Dirty"
    · rcases hcls k0 (List.mem_cons_self _ _) hd0 with hA | hB | hC
      · -- the head key flushes
        obtain ⟨hnew, ⟨ts, hst⟩, ⟨ev, hre⟩, huf⟩ := hA
        have hpk := processKey_flush uf ms k0 ts ev hd0 hnew hst hre huf
        set ms1 : MidState :=
          { stack := setA ms.stack k0 "Clean"
            staged := removeA ms.staged k0
            remote := setA ms.remote (eidOf k0)
              { ev with tagsProp := some (CacheVal.list ts) } } with hms1
        have hfs : ∀ k', k' ≠ k0 → lookupA ms1.stack k' = lookupA ms.stack k' :=
          fun k' h => lookupA_setA_ne ms.stack k0 k' "Clean" h
        have hfg : ∀ k', k' ≠ k0 → lookupA ms1.staged k' = lookupA ms.staged k' :=
          fun k' h => lookupA_removeA_ne ms.staged k0 k' h
        have hfr : ∀ eid, eid ≠ eidOf k0 → lookupA ms1.remote eid = lookupA ms.remote eid :=
          fun eid h => lookupA_setA_ne ms.remote (eidOf k0) eid _ h
        have hne : ∀ k ∈ ks, k ≠ k0 := fun k hk hh => hk0nin (hh ▸ hk)
        have hclsA : ∀ k ∈ ks, ClassA uf ms k ↔ ClassA uf ms1 k := by
          intro k hk
          unfold ClassA
          rw [hfg k (hne k hk), hfr (eidOf k) (hinj k hk)]
        have hclsB : ∀ k ∈ ks, ClassB uf ms k ↔ ClassB uf ms1 k := by
          intro k hk
          unfold ClassB
          rw [hfg k (hne k hk), hfr (eidOf k) (hinj k hk)]
        have hclsC : ∀ k ∈ ks, ClassC ms k ↔ ClassC ms1 k := by
          intro k hk
          unfold ClassC
          rw [hfg k (hne k hk)]
        have hcls1 : ∀ k ∈ ks, lookupA ms1.stack k = some "Dirty" →
            ClassA uf ms1 k ∨ ClassB uf ms1 k ∨ ClassC ms1 k := by
          intro k hk hdk
          rw [hfs k (hne k hk)] at hdk
          rcases hcls k (List.mem_cons_of_mem _ hk) hdk with h | h | h
          · exact Or.inl ((hclsA k hk).mp h)
          · exact Or.inr (Or.inl ((hclsB k hk).mp h))
          · exact Or.inr (Or.inr ((hclsC k hk).mp h))
        obtain ⟨ms', hrun, hmain, hfrk, hfre, hfrnd⟩ := ih ms1 hnd' hpf' hcls1
        refine ⟨ms', ?_, ?_, ?_, ?_, ?_⟩
        · simp only [processKeys, hpk]
          exact hrun
        · intro k hk hdk
          rcases List.mem_cons.mp hk with rfl | hk
          · -- conclusions for the flushed head key
            have hA' : ClassA uf ms k := ⟨hnew, ⟨ts, hst⟩, ⟨ev, hre⟩, huf⟩
            refine ⟨fun _ => ?_, fun hB => ?_, fun hC => ?_⟩
            · have h1 := (hfrk k hk0nin).1
              have h2 := (hfrk k hk0nin).2
              refine ⟨?_, ?_, ?_⟩
              · rw [h1]
                exact lookupA_setA_self ms.stack k "Clean"
              · rw [h2]
                exact lookupA_removeA_self ms.staged k
              · intro ts' hts'
                have : ts' = ts := by
                  rw [hst] at hts'
                  simpa using hts'.symm
                subst this
                have hre' : lookupA ms'.remote (eidOf k) = lookupA ms1.remote (eidOf k) :=
                  hfre (eidOf k) (fun k'' hk'' heq => hinj k'' hk'' heq.symm)
                rw [hre']
                exact ⟨_, lookupA_setA_self ms.remote (eidOf k) _, rfl⟩
            · obtain ⟨_, _, hfail⟩ := hB
              rcases hfail with hn | ht
              · rw [hre] at hn
                exact absurd hn (by simp)
              · rw [huf] at ht
                exact absurd ht (by simp)
            · obtain ⟨hnt, _⟩ := hC
              rw [hnew] at hnt
              exact absurd hnt (by simp)
          · -- conclusions for a later key, transported through ms1
            have hdk1 : lookupA ms1.stack k = some "Dirty" := by
              rw [hfs k (hne k hk)]
              exact hdk
            obtain ⟨hA1, hB1, hC1⟩ := hmain k hk hdk1
            refine ⟨fun hA => ?_, fun hB => ?_, fun hC => ?_⟩
            · obtain ⟨c1, c2, c3⟩ := hA1 ((hclsA k hk).mp hA)
              refine ⟨c1, c2, ?_⟩
              intro ts' hts'
              exact c3 ts' (by rw [hfg k (hne k hk)]; exact hts')
            · obtain ⟨c1, c2, c3⟩ := hB1 ((hclsB k hk).mp hB)
              refine ⟨c1, ?_, ?_⟩
              · rw [c2, hfg k (hne k hk)]
              · rw [c3, hfr (eidOf k) (hinj k hk)]
            · obtain ⟨c1, c2⟩ := hC1 ((hclsC k hk).mp hC)
              refine ⟨c1, ?_⟩
              rw [c2, hfg k (hne k hk)]
        · intro k' hk'
          have hne0 : k' ≠ k0 := fun hh => hk' (hh ▸ List.mem_cons_self _ _)
          have hnin : k' ∉ ks := fun hh => hk' (List.mem_cons_of_mem _ hh)
          refine ⟨?_, ?_⟩
          · rw [(hfrk k' hnin).1, hfs k' hne0]
          · rw [(hfrk k' hnin).2, hfg k' hne0]
        · intro eid heid
          have h0 : eid ≠ eidOf k0 := heid k0 (List.mem_cons_self _ _)
          have h1 : ∀ k ∈ ks, eid ≠ eidOf k := fun k hk => heid k (List.mem_cons_of_mem _ hk)
          rw [hfre eid h1, hfr eid h0]
        · intro hndk
          exact hfrnd (nodup_keysOf_setA ms.stack k0 "Clean" hndk)
      · -- the head key fails remotely: the iteration is a no-op on the state
        obtain ⟨hnew, ⟨ts, hst⟩, hfail⟩ := hB
        have hpk : processKey uf ms k0 = Except.ok ms := by
          rcases hfail with hn | ht
          · exact processKey_remote_missing uf ms k0 ts hnew hst hn
          · exact processKey_update_raises uf ms k0 ts hnew hst ht
        have hcls1 : ∀ k ∈ ks, lookupA ms.stack k = some "Dirty" →
            ClassA uf ms k ∨ ClassB uf ms k ∨ ClassC ms k :=
          fun k hk => hcls k (List.mem_cons_of_mem _ hk)
        obtain ⟨ms', hrun, hmain, hfrk, hfre, hfrnd⟩ := ih ms hnd' hpf' hcls1
        refine ⟨ms', ?_, ?_, ?_, ?_, hfrnd⟩
        · simp only [processKeys, hpk]
          exact hrun
        · intro k hk hdk
          rcases List.mem_cons.mp hk with rfl | hk
          · have hB' : ClassB uf ms k := ⟨hnew, ⟨ts, hst⟩, hfail⟩
            refine ⟨fun hA => ?_, fun _ => ?_, fun hC => ?_⟩
            · obtain ⟨_, _, ⟨ev, hre⟩, huf⟩ := hA
              rcases hfail with hn | ht
              · rw [hre] at hn
                exact absurd hn (by simp)
              · rw [huf] at ht
                exact absurd ht (by simp)
            · refine ⟨?_, (hfrk k hk0nin).2, ?_⟩
              · rw [(hfrk k hk0nin).1]
                exact hdk
              · exact hfre (eidOf k) (fun k'' hk'' heq => hinj k'' hk'' heq.symm)
            · obtain ⟨hnt, _⟩ := hC
              rw [hnew] at hnt
              exact absurd hnt (by simp)
          · exact hmain k hk hdk
        · intro k' hk'
          exact hfrk k' (fun hh => hk' (List.mem_cons_of_mem _ hh))
        · intro eid heid
          exact hfre eid (fun k hk => heid k (List.mem_cons_of_mem _ hk))
      · -- the head key is an unsaved-event key: skipped
        obtain ⟨hnew, hok⟩ := hC
        have hpk : processKey uf ms k0 = Except.ok ms := processKey_newkey uf ms k0 hnew hok
        have hcls1 : ∀ k ∈ ks, lookupA ms.stack k = some "Dirty" →
            ClassA uf ms k ∨ ClassB uf ms k ∨ ClassC ms k :=
          fun k hk => hcls k (List.mem_cons_of_mem _ hk)
        obtain ⟨ms', hrun, hmain, hfrk, hfre, hfrnd⟩ := ih ms hnd' hpf' hcls1
        refine ⟨ms', ?_, ?_, ?_, ?_, hfrnd⟩
        · simp only [processKeys, hpk]
          exact hrun
        · intro k hk hdk
          rcases List.mem_cons.mp hk with rfl | hk
          · refine ⟨fun hA => ?_, fun hB => ?_, fun _ => ?_⟩
            · obtain ⟨hnf, _⟩ := hA
              rw [hnew] at hnf
              exact absurd hnf (by simp)
            · obtain ⟨hnf, _⟩ := hB
              rw [hnew] at hnf
              exact absurd hnf (by simp)
            · refine ⟨?_, (hfrk k hk0nin).2⟩
              rw [(hfrk k hk0nin).1]
              exact hdk
          · exact hmain k hk hdk
        · intro k' hk'
          exact hfrk k' (fun hh => hk' (List.mem_cons_of_mem _ hh))
        · intro eid heid
          exact hfre eid (fun k hk => heid k (List.mem_cons_of_mem _ hk))
    · -- the head key is not Dirty: skipped
      have hpk : processKey uf ms k0 = Except.ok ms := processKey_not_dirty uf ms k0 hd0
      have hcls1 : ∀ k ∈ ks, lookupA ms.stack k = some "Dirty" →
          ClassA uf ms k ∨ ClassB uf ms k ∨ ClassC ms k :=
        fun k hk => hcls k (List.mem_cons_of_mem _ hk)
      obtain ⟨ms', hrun, hmain, hfrk, hfre, hfrnd⟩ := ih ms hnd' hpf' hcls1
      refine ⟨ms', ?_, ?_, ?_, ?_, hfrnd⟩
      · simp only [processKeys, hpk]
        exact hrun
      · intro k hk hdk
        rcases List.mem_cons.mp hk with rfl | hk
        · exact absurd hdk hd0
        · exact hmain k hk hdk
      · intro k' hk'
        exact hfrk k' (fun hh => hk' (List.mem_cons_of_mem _ hh))
      · intro eid heid
        exact hfre eid (fun k hk => heid k (List.mem_cons_of_mem _ hk))

/-! ## Frame lemmas for single keys and whole passes -/

theorem processKey_frame (uf : String → Bool) (ms : MidState) (k : String) (ms1 : MidState)
    (h : processKey uf ms k = Except.ok ms1) :
    (∀ k', k' ≠ k → lookupA ms1.stack k' = lookupA ms.stack k' ∧
      lookupA ms1.staged k' = lookupA ms.staged k') ∧
    ((keysOf ms.stack).Nodup → (keysOf ms1.stack).Nodup) := by
  by_cases hd : lookupA ms.stack k = some "Dirty"
  · cases hst : lookupA ms.staged k with
    | none =>
      rw [processKey_no_staged uf ms k hst] at h
      obtain rfl : ms = ms1 := by simpa using h
      exact ⟨fun k' _ => ⟨rfl, rfl⟩, fun hh => hh⟩
    | some cv =>
      cases cv with
      | malformed =>
        rw [processKey_malformed uf ms k hd hst] at h
        simp at h
      | list ts =>
        by_cases hnew : isNewKey k = true
        · rw [processKey_newkey uf ms k hnew (by rw [hst]; simp)] at h
          obtain rfl : ms = ms1 := by simpa using h
          exact ⟨fun k' _ => ⟨rfl, rfl⟩, fun hh => hh⟩
        · have hnew' : isNewKey k = false := by simpa using hnew
          cases hre : lookupA ms.remote (eidOf k) with
          | none =>
            rw [processKey_remote_missing uf ms k ts hnew' hst hre] at h
            obtain rfl : ms = ms1 := by simpa using h
            exact ⟨fun k' _ => ⟨rfl, rfl⟩, fun hh => hh⟩
          | some ev =>
            by_cases huf : uf (eidOf k) = true
            · rw [processKey_update_raises uf ms k ts hnew' hst huf] at h
              obtain rfl : ms = ms1 := by simpa using h
              exact ⟨fun k' _ => ⟨rfl, rfl⟩, fun hh => hh⟩
            · have huf' : uf (eidOf k) = false := by simpa using huf
              rw [processKey_flush uf ms k ts ev hd hnew' hst hre huf'] at h
              have hms1 : ms1 =
                  { stack := setA ms.stack k "Clean"
                    staged := removeA ms.staged k
                    remote := setA ms.remote (eidOf k)
                      { ev with tagsProp := some (CacheVal.list ts) } } := by
                simpa using h.symm
              subst hms1
              refine ⟨fun k' hk' => ⟨lookupA_setA_ne _ _ _ _ hk',
                lookupA_removeA_ne _ _ _ hk'⟩, fun hh => nodup_keysOf_setA _ _ _ hh⟩
  · rw [processKey_not_dirty uf ms k hd] at h
    obtain rfl : ms = ms1 := by simpa using h
    exact ⟨fun k' _ => ⟨rfl, rfl⟩, fun hh => hh⟩

theorem processKey_error_eq (uf : String → Bool) (ms : MidState) (k : String) (e : MidState)
    (h : processKey uf ms k = Except.error e) : e = ms := by
  by_cases hd : lookupA ms.stack k = some "Dirty"
  · cases hst : lookupA ms.staged k with
    | none =>
      rw [processKey_no_staged uf ms k hst] at h
      simp at h
    | some cv =>
      cases cv with
      | malformed =>
        rw [processKey_malformed uf ms k hd hst] at h
        simpa using h.symm
      | list ts =>
        by_cases hnew : isNewKey k = true
        · rw [processKey_newkey uf ms k hnew (by rw [hst]; simp)] at h
          simp at h
        · have hnew' : isNewKey k = false := by simpa using hnew
          cases hre : lookupA ms.remote (eidOf k) with
          | none =>
            rw [processKey_remote_missing uf ms k ts hnew' hst hre] at h
            simp at h
          | some ev =>
            by_cases huf : uf (eidOf k) = true
            · rw [processKey_update_raises uf ms k ts hnew' hst huf] at h
              simp at h
            · have huf' : uf (eidOf k) = false := by simpa using huf
              rw [processKey_flush uf ms k ts ev hd hnew' hst hre huf'] at h
              simp at h
  · rw [processKey_not_dirty uf ms k hd] at h
    simp at h

theorem processKey_newkey_cases (uf : String → Bool) (ms : MidState) (k : String)
    (hnew : isNewKey k = true) :
    processKey uf ms k = Except.ok ms ∨ processKey uf ms k = Except.error ms := by
  by_cases hd : lookupA ms.stack k = some "Dirty"
  · cases hst : lookupA ms.staged k with
    | none => exact Or.inl (processKey_no_staged uf ms k hst)
    | some cv =>
      cases cv with
      | malformed => exact Or.inr (processKey_malformed uf ms k hd hst)
      | list ts => exact Or.inl (processKey_newkey uf ms k hnew (by rw [hst]; simp))
  · exact Or.inl (processKey_not_dirty uf ms k hd)

theorem processKeys_newkey_frames (uf : String → Bool) (k : String) (hnew : isNewKey k = true)
    (ks : List String) :
    ∀ ms : MidState,
      (∀ ms', processKeys uf ms ks = Except.ok ms' →
        lookupA ms'.stack k = lookupA ms.stack k ∧
        lookupA ms'.staged k = lookupA ms.staged k ∧
        ((keysOf ms.stack).Nodup → (keysOf ms'.stack).Nodup)) ∧
      (∀ ms', processKeys uf ms ks = Except.error ms' →
        lookupA ms'.staged k = lookupA ms.staged k) := by
  induction ks with
  | nil =>
    intro ms
    constructor
    · intro ms' h
      obtain rfl : ms = ms' := by simpa [processKeys] using h
      exact ⟨rfl, rfl, fun hh => hh⟩
    · intro ms' h
      simp [processKeys] at h
  | cons k0 ks ih =>
    intro ms
    constructor
    · intro ms' h
      cases hpk : processKey uf ms k0 with
      | error e =>
        simp only [processKeys, hpk] at h
        simp at h
      | ok ms1 =>
        simp only [processKeys, hpk] at h
        by_cases hk0 : k0 = k
        · subst hk0
          rcases processKey_newkey_cases uf ms k0 hnew with hc | hc
          · rw [hc] at hpk
            obtain rfl : ms = ms1 := by simpa using hpk
            exact (ih ms).1 ms' h
          · rw [hc] at hpk
            simp at hpk
        · obtain ⟨hfr, hnd⟩ := processKey_frame uf ms k0 ms1 hpk
          have hk := hfr k (fun hh => hk0 hh.symm)
          obtain ⟨c1, c2, c3⟩ := (ih ms1).1 ms' h
          exact ⟨by rw [c1, hk.1], by rw [c2, hk.2], fun hh => c3 (hnd hh)⟩
    · intro ms' h
      cases hpk : processKey uf ms k0 with
      | error e =>
        simp only [processKeys, hpk] at h
        have he : e = ms' := by simpa using h
        have h2 := processKey_error_eq uf ms k0 e hpk
        rw [← he, h2]
      | ok ms1 =>
        simp only [processKeys, hpk] at h
        by_cases hk0 : k0 = k
        · subst hk0
          rcases processKey_newkey_cases uf ms k0 hnew with hc | hc
          · rw [hc] at hpk
            obtain rfl : ms = ms1 := by simpa using hpk
            exact (ih ms).2 ms' h
          · rw [hc] at hpk
            simp at hpk
        · obtain ⟨hfr, _⟩ := processKey_frame uf ms k0 ms1 hpk
          have hk := hfr k (fun hh => hk0 hh.symm)
          rw [(ih ms1).2 ms' h, hk.2]

theorem processKeys_noop (uf : String → Bool) (ks : List String) :
    ∀ ms : MidState,
    (∀ k, lookupA ms.stack k = some "Dirty" →
      isNewKey k = true ∧ lookupA ms.staged k ≠ some CacheVal.malformed) →
    processKeys uf ms ks = Except.ok ms := by
  induction ks with
  | nil => intro ms _; rfl
  | cons k0 ks ih =>
    intro ms hall
    have hpk : processKey uf ms k0 = Except.ok ms := by
      by_cases hd : lookupA ms.stack k0 = some "Dirty"
      · obtain ⟨hnew, hok⟩ := hall k0 hd
        exact processKey_newkey uf ms k0 hnew hok
      · exact processKey_not_dirty uf ms k0 hd
    simp only [processKeys, hpk]
    exact ih ms hall

theorem processKeys_error_of_malformed (uf : String → Bool) (ks : List String) :
    ∀ (ms : MidState) (k : String), k ∈ ks → ks.Nodup →
    lookupA ms.stack k = some "Dirty" → lookupA ms.staged k = some CacheVal.malformed →
    ∃ e, processKeys uf ms ks = Except.error e := by
  induction ks with
  | nil => intro ms k hk; simp at hk
  | cons k0 ks ih =>
    intro ms k hk hnd hdk hmal
    by_cases hk0 : k = k0
    · subst hk0
      refine ⟨ms, ?_⟩
      simp only [processKeys, processKey_malformed uf ms k hdk hmal]
    · have hk' : k ∈ ks := by
        rcases List.mem_cons.mp hk with rfl | hh
        · exact absurd rfl hk0
        · exact hh
      cases hpk : processKey uf ms k0 with
      | error e =>
        refine ⟨e, ?_⟩
        simp only [processKeys, hpk]
      | ok ms1 =>
        obtain ⟨hfr, _⟩ := processKey_frame uf ms k0 ms1 hpk
        have hkfr := hfr k hk0
        obtain ⟨e, he⟩ := ih ms1 k hk' (List.nodup_cons.mp hnd).2
          (by rw [hkfr.1]; exact hdk) (by rw [hkfr.2]; exact hmal)
        refine ⟨e, ?_⟩
        simp only [processKeys, hpk]
        exact he

/-! ## Attendee-domain lookup lemmas -/

theorem find?_first {α : Type} (p : α → Bool) (rpre : List α) (r : α) (rpost : List α)
    (hpre : ∀ r' ∈ rpre, p r' = false) (hr : p r = true) :
    List.find? p (rpre ++ r :: rpost) = some r := by
  induction rpre with
  | nil => exact List.find?_cons_of_pos rpost hr
  | cons hd tl ih =>
    rw [List.cons_append, List.find?_cons_of_neg _ (by simp [hpre hd (List.mem_cons_self _ _)])]
    exact ih (fun r' hr' => hpre r' (List.mem_cons_of_mem _ hr'))

theorem scanAttendees_skip (rows : List (String × String)) (a : Attendee) (att : List Attendee)
    (h : a.email = "" ∨ ∀ row ∈ rows, emailDomain a.email ≠ some row.2) :
    scanAttendees rows (a :: att) = scanAttendees rows att := by
  by_cases he : a.email = ""
  · simp [scanAttendees, he]
  · have hnr : ∀ row ∈ rows, emailDomain a.email ≠ some row.2 := by
      rcases h with h | h
      · exact absurd h he
      · exact h
    cases hd : emailDomain a.email with
    | none => simp [scanAttendees, he, hd]
    | some d =>
      have hfind : rows.find? (fun r => r.2 == d) = none := by
        cases hf : rows.find? (fun r => r.2 == d) with
        | none => rfl
        | some rr =>
          have hp : rr.2 = d := by simpa using List.find?_some hf
          have hmem := List.mem_of_find?_eq_some hf
          have : emailDomain a.email = some rr.2 := by rw [hd, hp]
          exact absurd this (hnr rr hmem)
      simp [scanAttendees, he, hd, hfind]

theorem scanAttendees_append_skip (rows : List (String × String)) (apre : List Attendee)
    (att : List Attendee)
    (h : ∀ a' ∈ apre, a'.email = "" ∨ ∀ row ∈ rows, emailDomain a'.email ≠ some row.2) :
    scanAttendees rows (apre ++ att) = scanAttendees rows att := by
  induction apre with
  | nil => rfl
  | cons hd tl ih =>
    rw [List.cons_append, scanAttendees_skip rows hd _ (h hd (List.mem_cons_self _ _))]
    exact ih (fun a' ha' => h a' (List.mem_cons_of_mem _ ha'))

theorem scanAttendees_found (rows : List (String × String)) (a : Attendee)
    (rest : List Attendee) (d : String) (r : String × String)
    (he : a.email ≠ "") (hd : emailDomain a.email = some d)
    (hf : rows.find? (fun rr => rr.2 == d) = some r) :
    scanAttendees rows (a :: rest) = rowTag r.1 := by
  simp [scanAttendees, he, hd, hf]

theorem getAutoTag_unfold (p : Props) (rows : List (String × String)) (att : List Attendee)
    (hcfg : truthy p.emailDomainColumn = true ∧ truthy p.spreadsheetId = true ∧
      truthy p.sheetName = true ∧ truthy p.column = true)
    (hne : rows ≠ []) :
    getAutoTagFromAttendees p (Sheet.table rows) att = scanAttendees rows att := by
  obtain ⟨h1, h2, h3, h4⟩ := hcfg
  have hie : rows.isEmpty = false := by
    cases rows
    · exact absurd rfl hne
    · rfl
  simp [getAutoTagFromAttendees, h1, h2, h3, h4, hie]

/-! ## Claims about the Auto-Tag Deriver and the Tag Catalog Resolver -/

/-- C7 (amended): for each `#word` token of the title, in title order, the
extraction returns the *first* catalog tag matching it case-insensitively
(so every returned tag is a catalog tag matching some token, and every
matching catalog tag is returned provided no distinct catalog entry
collides with it case-insensitively); the title
`"Sync #Work with #bogus team"` against `["#Work", "#Personal"]` yields
exactly `["#Work"]`. -/
theorem c7_title_extraction (catalog : List String) (title : String)
    (hnd : (catalog.map lowerS).Nodup) :
    (∀ tag ∈ extractTagFromTitle catalog (some title), tag ∈ catalog ∧
      ∃ tok ∈ tagTokens title.data, lowerS tag = lowerS tok) ∧
    (∀ tag ∈ catalog, (∃ tok ∈ tagTokens title.data, lowerS tag = lowerS tok) →
      tag ∈ extractTagFromTitle catalog (some title)) ∧
    extractTagFromTitle ["#Work", "#Personal"] (some "Sync #Work with #bogus team")
      = ["#Work"] := by
  refine ⟨?_, ?_, by decide⟩
  · intro tag htag
    by_cases ht : title = ""
    · rw [extractTagFromTitle, ht] at htag
      simp at htag
    · rw [extractTagFromTitle] at htag
      rw [if_neg ht] at htag
      obtain ⟨tok, htok, hfind⟩ := List.mem_filterMap.mp htag
      refine ⟨List.mem_of_find?_eq_some hfind, tok, htok, ?_⟩
      simpa using List.find?_some hfind
  · intro tag htag ⟨tok, htok, heq⟩
    by_cases ht : title = ""
    · rw [ht] at htok
      have : tagTokens ("" : String).data = [] := by decide
      rw [this] at htok
      simp at htok
    · rw [extractTagFromTitle]
      rw [if_neg ht]
      cases hf : catalog.find? (fun c => lowerS c == lowerS tok) with
      | none =>
        have := List.find?_eq_none.mp hf tag htag
        simp [heq] at this
      | some tag' =>
        have hp : lowerS tag' = lowerS tok := by simpa using List.find?_some hf
        have hmem' := List.mem_of_find?_eq_some hf
        have : tag' = tag := by
          refine List.inj_on_of_nodup_map hnd hmem' htag ?_
          rw [hp, heq]
        subst this
        exact List.mem_filterMap.mpr ⟨tok, htok, hf⟩

/-- Witness for C7: the concrete extraction example, via the theorem. -/
theorem c7_title_extraction_witness :
    extractTagFromTitle ["#Work", "#Personal"] (some "Sync #Work with #bogus team")
      = ["#Work"] :=
  (c7_title_extraction ["#Work", "#Personal"] "Sync #Work with #bogus team" (by decide)).2.2

/-- Counterexample for C7 as stated: with catalog `["#Work", "#WORK"]`
and title `"Sync #work"`, the tag `#WORK` matches the token `#work`
case-insensitively, yet only the first match `#Work` is returned — the
extraction does not return *all* matching catalog tags. -/
theorem c7_title_extraction_counterexample :
    ("#WORK" ∈ (["#Work", "#WORK"] : List String)) ∧
    ("#work" ∈ tagTokens ("Sync #work" : String).data) ∧
    lowerS "#WORK" = lowerS "#work" ∧
    extractTagFromTitle ["#Work", "#WORK"] (some "Sync #work") = ["#Work"] ∧
    "#WORK" ∉ extractTagFromTitle ["#Work", "#WORK"] (some "Sync #work") := by
  refine ⟨by decide, by decide, by decide, by decide, by decide⟩

/-- C8: the attendee-domain lookup returns at most one tag (it is
`Option`-valued): scanning attendees in order, for the first attendee with
a truthy email whose extracted domain matches some row's domain cell, the
first such row (in row order) decides the result, with the `#` sigil
prepended to its tag cell when missing; unviable attendees, a missing
configuration, an unopenable spreadsheet or a missing sheet yield `none`
without raising; attendee `a@example.com` against
`{"example.com": "Sales"}` yields `#Sales`. -/
theorem c8_attendee_domain_lookup (p : Props) (rows rpre rpost : List (String × String))
    (r : String × String) (apre apost : List Attendee) (a : Attendee) (d : String)
    (hcfg : truthy p.emailDomainColumn = true ∧ truthy p.spreadsheetId = true ∧
      truthy p.sheetName = true ∧ truthy p.column = true)
    (hrows : rows = rpre ++ r :: rpost)
    (hpre : ∀ a' ∈ apre, a'.email = "" ∨ ∀ row ∈ rows, emailDomain a'.email ≠ some row.2)
    (hmail : a.email ≠ "") (hdom : emailDomain a.email = some d)
    (hrd : r.2 = d) (hrpre : ∀ r' ∈ rpre, r'.2 ≠ d) (htag : r.1 ≠ "") :
    getAutoTagFromAttendees p (Sheet.table rows) (apre ++ a :: apost) = some (normTag r.1) ∧
    (∀ att, (∀ a' ∈ att, a'.email = "" ∨ ∀ row ∈ rows, emailDomain a'.email ≠ some row.2) →
      getAutoTagFromAttendees p (Sheet.table rows) att = none) ∧
    (∀ (p' : Props) (sh : Sheet) (att : List Attendee), truthy p'.emailDomainColumn = false →
      getAutoTagFromAttendees p' sh att = none) ∧
    (∀ att : List Attendee, getAutoTagFromAttendees p Sheet.unavailable att = none ∧
      getAutoTagFromAttendees p Sheet.missing att = none) ∧
    getAutoTagFromAttendees propsFull (Sheet.table [("Sales", "example.com")])
      [{ email := "a@example.com" }] = some "#Sales" := by
  have hne : rows ≠ [] := by rw [hrows]; simp
  refine ⟨?_, ?_, ?_, ?_, by decide⟩
  · rw [getAutoTag_unfold p rows _ hcfg hne,
      scanAttendees_append_skip rows apre _ hpre]
    have hfind : rows.find? (fun rr => rr.2 == d) = some r := by
      rw [hrows]
      exact find?_first _ rpre r rpost (fun r' hr' => by simp [hrpre r' hr']) (by simp [hrd])
    rw [scanAttendees_found rows a apost d r hmail hdom hfind, rowTag, if_neg htag]
  · intro att hatt
    rw [getAutoTag_unfold p rows att hcfg hne, ← List.append_nil att,
      scanAttendees_append_skip rows att [] hatt]
    rfl
  · intro p' sh att h
    simp [getAutoTagFromAttendees, h]
  · intro att
    constructor
    · simp [getAutoTagFromAttendees]
    · simp [getAutoTagFromAttendees]

/-- Witness for C8: an unviable attendee is skipped, the first matching
row for the first viable attendee wins, and the sigil is prepended. -/
theorem c8_attendee_domain_lookup_witness :
    getAutoTagFromAttendees propsFull
      (Sheet.table [("x", "nomatch.com"), ("Sales", "example.com")])
      [{ email := "" }, { email := "a@example.com" }] = some "#Sales" := by
  have h := (c8_attendee_domain_lookup propsFull
    [("x", "nomatch.com"), ("Sales", "example.com")]
    [("x", "nomatch.com")] [] ("Sales", "example.com")
    [{ email := "" }] [] { email := "a@example.com" } "example.com"
    (by decide) rfl (by decide) (by decide) (by decide) rfl (by decide) (by decide)).1
  exact h.trans (by decide)

/-- C10: when the first matching row (for the first viable attendee) has
an empty tag cell, the lookup returns `null` immediately: later matching
rows and remaining attendees are never consulted. -/
theorem c10_empty_tag_cell_short_circuits (p : Props)
    (rows rpre rpost : List (String × String)) (r : String × String)
    (apre apost : List Attendee) (a : Attendee) (d : String)
    (hcfg : truthy p.emailDomainColumn = true ∧ truthy p.spreadsheetId = true ∧
      truthy p.sheetName = true ∧ truthy p.column = true)
    (hrows : rows = rpre ++ r :: rpost)
    (hpre : ∀ a' ∈ apre, a'.email = "" ∨ ∀ row ∈ rows, emailDomain a'.email ≠ some row.2)
    (hmail : a.email ≠ "") (hdom : emailDomain a.email = some d)
    (hrd : r.2 = d) (hrpre : ∀ r' ∈ rpre, r'.2 ≠ d) (htag : r.1 = "") :
    getAutoTagFromAttendees p (Sheet.table rows) (apre ++ a :: apost) = none := by
  have hne : rows ≠ [] := by rw [hrows]; simp
  rw [getAutoTag_unfold p rows _ hcfg hne,
    scanAttendees_append_skip rows apre _ hpre]
  have hfind : rows.find? (fun rr => rr.2 == d) = some r := by
    rw [hrows]
    exact find?_first _ rpre r rpost (fun r' hr' => by simp [hrpre r' hr']) (by simp [hrd])
  rw [scanAttendees_found rows a apost d r hmail hdom hfind, rowTag, if_pos htag]

/-- Witness for C10: the first row matching `example.com` has an empty tag
cell, so the result is `none`, although the second row maps the same
domain to `Sales` and the second attendee's domain maps to `Ops`. -/
theorem c10_empty_tag_cell_witness :
    getAutoTagFromAttendees propsFull
      (Sheet.table [("", "example.com"), ("Sales", "example.com"), ("Ops", "corp.com")])
      [{ email := "a@example.com" }, { email := "b@corp.com" }] = none ∧
    getAutoTagFromAttendees propsFull
      (Sheet.table [("Sales", "example.com"), ("Ops", "corp.com")])
      [{ email := "a@example.com" }, { email := "b@corp.com" }] = some "#Sales" ∧
    getAutoTagFromAttendees propsFull
      (Sheet.table [("", "example.com"), ("Sales", "example.com"), ("Ops", "corp.com")])
      [{ email := "b@corp.com" }] = some "#Ops" := by
  refine ⟨?_, by decide, by decide⟩
  exact c10_empty_tag_cell_short_circuits propsFull
    [("", "example.com"), ("Sales", "example.com"), ("Ops", "corp.com")]
    [] [("Sales", "example.com"), ("Ops", "corp.com")] ("", "example.com")
    [] [{ email := "b@corp.com" }] { email := "a@example.com" } "example.com"
    (by decide) rfl (by decide) (by decide) (by decide) rfl (by decide) rfl

/-- C9: on a memoization miss the catalog is the static defaults followed
by the spreadsheet tags, deduplicated keeping the first occurrence of
each tag (duplicate-free, same membership as the concatenation, order of
surviving entries preserved, ordered by first occurrence, defaults first);
and on any external-source error the result is exactly the default list,
with no exception (the resolver is total). -/
theorem c9_catalog_on_miss (p : Props) (sh : Sheet) (hmiss : p.userTags = none) :
    (getUserTags p sh).Nodup ∧
    (∀ x, x ∈ getUserTags p sh ↔
      x ∈ DEFAULT_USER_TAGS ++ fetchTagsFromSpreadsheet p sh) ∧
    (getUserTags p sh).Sublist (DEFAULT_USER_TAGS ++ fetchTagsFromSpreadsheet p sh) ∧
    (getUserTags p sh).Pairwise (fun a b =>
      firstIdx (DEFAULT_USER_TAGS ++ fetchTagsFromSpreadsheet p sh) a <
      firstIdx (DEFAULT_USER_TAGS ++ fetchTagsFromSpreadsheet p sh) b) ∧
    (∃ rest, getUserTags p sh = DEFAULT_USER_TAGS ++ rest) ∧
    ((configTagsOK p = false ∨ sh = Sheet.unavailable ∨ sh = Sheet.missing) →
      getUserTags p sh = DEFAULT_USER_TAGS) := by
  have hg : getUserTags p sh =
      dedupFirst (DEFAULT_USER_TAGS ++ fetchTagsFromSpreadsheet p sh) := by
    rw [getUserTags, hmiss]
  refine ⟨?_, ?_, ?_, ?_, ?_, ?_⟩
  · rw [hg]
    exact nodup_dedupFirst _
  · intro x
    rw [hg]
    exact mem_dedupFirst _ x
  · rw [hg]
    exact sublist_dedupFirstAux [] _
  · rw [hg]
    exact firstIdx_order_dedupFirst _
  · rw [hg, dedupFirst, dedupFirstAux_append_of_fresh DEFAULT_USER_TAGS []
      (fetchTagsFromSpreadsheet p sh) (by decide) (by simp)]
    exact ⟨_, rfl⟩
  · intro herr
    have hf : fetchTagsFromSpreadsheet p sh = [] := by
      rcases herr with h | h | h
      · simp [fetchTagsFromSpreadsheet, h]
      · rw [h]
        simp [fetchTagsFromSpreadsheet]
      · rw [h]
        simp [fetchTagsFromSpreadsheet]
    rw [hg, hf, List.append_nil]
    decide

/-- Witness for C9: a configured sheet contributes its normalized tag,
and an unopenable spreadsheet leaves exactly the defaults. -/
theorem c9_catalog_on_miss_witness :
    ("#BizDev" ∈ getUserTags
      { spreadsheetId := some "S", sheetName := some "N", column := some "A"
        emailDomainColumn := none, userTags := none }
      (Sheet.table [("Work", ""), ("BizDev", "")])) ∧
    getUserTags
      { spreadsheetId := some "S", sheetName := some "N", column := some "A"
        emailDomainColumn := none, userTags := none }
      Sheet.unavailable = DEFAULT_USER_TAGS := by
  constructor
  · exact ((c9_catalog_on_miss
      { spreadsheetId := some "S", sheetName := some "N", column := some "A"
        emailDomainColumn := none, userTags := none }
      (Sheet.table [("Work", ""), ("BizDev", "")]) rfl).2.1 "#BizDev").mpr (by decide)
  · exact (c9_catalog_on_miss
      { spreadsheetId := some "S", sheetName := some "N", column := some "A"
        emailDomainColumn := none, userTags := none }
      Sheet.unavailable rfl).2.2.2.2.2 (Or.inr (Or.inl rfl))

/-! ## Toggle lemmas -/

theorem contentOf_nodup (cv : Option CacheVal) : (contentOf cv).Nodup := by
  cases cv with
  | none => simp [contentOf]
  | some v =>
    cases v with
    | list ts => exact nodup_dedupFirst ts
    | malformed => simp [contentOf]

theorem toggleList_nodup (l : List String) (tag : String) (h : l.Nodup) :
    (toggleList l tag).Nodup := by
  rw [toggleList]
  by_cases hc : l.contains tag = true
  · rw [if_pos hc]
    exact h.filter _
  · rw [if_neg hc]
    have : tag ∉ l := by simpa using hc
    simp [List.nodup_append, h, this]

theorem toggleList_twice_mem (l : List String) (tag t : String) :
    t ∈ toggleList (toggleList l tag) tag ↔ t ∈ l := by
  by_cases hc : tag ∈ l
  · have hcb : l.contains tag = true := by simpa using hc
    have hinner : toggleList l tag = l.filter (fun x => x != tag) := by
      rw [toggleList, if_pos hcb]
    have hcb2 : ¬ (l.filter (fun x => x != tag)).contains tag = true := by simp
    rw [hinner, toggleList, if_neg hcb2]
    simp only [List.mem_append, List.mem_filter, List.mem_singleton, bne_iff_ne, ne_eq]
    constructor
    · rintro (⟨hm, _⟩ | rfl)
      · exact hm
      · exact hc
    · intro ht
      by_cases hx : t = tag
      · exact Or.inr hx
      · exact Or.inl ⟨ht, hx⟩
  · have hcb : ¬ l.contains tag = true := by simpa using hc
    have hinner : toggleList l tag = l ++ [tag] := by
      rw [toggleList, if_neg hcb]
    have hcb2 : (l ++ [tag]).contains tag = true := by simp
    rw [hinner, toggleList, if_pos hcb2]
    have hfe : (l ++ [tag]).filter (fun x => x != tag) = l := by
      rw [List.filter_append]
      have h1 : ([tag] : List String).filter (fun x => x != tag) = [] := by simp
      have h2 : l.filter (fun x => x != tag) = l := by
        refine List.filter_eq_self.mpr ?_
        intro x hx
        simp only [bne_iff_ne, ne_eq]
        intro heq
        exact hc (heq ▸ hx)
      rw [h1, h2, List.append_nil]
    rw [hfe]

theorem handleTagClick_eq (st : ClickState) (ck tag : String) (hck : ck ≠ "") :
    handleTagClick st (some ck) tag =
      (ClickResult.updated (toggleList (contentOf (lookupA st.staged ck)) tag),
        { staged := setA st.staged ck
            (CacheVal.list (toggleList (contentOf (lookupA st.staged ck)) tag))
          modifiedEvents := some (pushModifiedEvent st.modifiedEvents ck) }) := by
  simp only [handleTagClick]
  rw [if_neg hck]

/-! ## Claims about the toggle handler -/

/-- C5 (amended): toggling the same tag twice on a key restores the staged
TagSet to its content before the first toggle, and the key is marked
Dirty by each toggle — so its Dirty/Clean status is unchanged by the pair
exactly when the key was already Dirty, and is `Dirty` afterwards in
every case. -/
theorem c5_toggle_pair (st : ClickState) (ck tag : String) (hck : ck ≠ "") :
    (∀ t, t ∈ contentOf (lookupA
        (handleTagClick (handleTagClick st (some ck) tag).2 (some ck) tag).2.staged ck) ↔
      t ∈ contentOf (lookupA st.staged ck)) ∧
    statusInClick (handleTagClick (handleTagClick st (some ck) tag).2 (some ck) tag).2 ck
      = some "Dirty" := by
  have hnd : (contentOf (lookupA st.staged ck)).Nodup := contentOf_nodup _
  set L1 := toggleList (contentOf (lookupA st.staged ck)) tag with hL1
  have hc1 : contentOf (lookupA (setA st.staged ck (CacheVal.list L1)) ck) = L1 := by
    rw [lookupA_setA_self]
    exact dedupFirst_eq_self _ (toggleList_nodup _ tag hnd)
  have hndL1 : L1.Nodup := toggleList_nodup _ tag hnd
  rw [handleTagClick_eq st ck tag hck]
  rw [handleTagClick_eq _ ck tag hck]
  simp only [hc1]
  have hc2 : contentOf (lookupA (setA (setA st.staged ck (CacheVal.list L1)) ck
      (CacheVal.list (toggleList L1 tag))) ck) = toggleList L1 tag := by
    rw [lookupA_setA_self]
    exact dedupFirst_eq_self _ (toggleList_nodup _ tag hndL1)
  refine ⟨fun t => ?_, ?_⟩
  · simp only [hc2]
    rw [hL1]
    exact toggleList_twice_mem _ tag t
  · simp only [statusInClick, pushModifiedEvent, Option.getD_some]
    exact lookupA_setA_self _ _ _

/-- Witness for C5: toggling `#A` twice on a key staged with `["#A"]`
leaves `#A` staged and the key Dirty. -/
theorem c5_toggle_pair_witness :
    ("#A" ∈ contentOf (lookupA
      (handleTagClick (handleTagClick
        { staged := [("k", CacheVal.list ["#A"])], modifiedEvents := none }
        (some "k") "#A").2 (some "k") "#A").2.staged "k")) ∧
    statusInClick (handleTagClick (handleTagClick
        { staged := [("k", CacheVal.list ["#A"])], modifiedEvents := none }
        (some "k") "#A").2 (some "k") "#A").2 "k" = some "Dirty" := by
  have h := c5_toggle_pair
    { staged := [("k", CacheVal.list ["#A"])], modifiedEvents := none } "k" "#A" (by decide)
  exact ⟨(h.1 "#A").mpr (by decide), h.2⟩

/-- Counterexample for C5 as stated: on a key absent from the DirtyIndex,
a pair of identical toggles changes its status from absent to `Dirty` —
the status is not left unchanged. -/
theorem c5_toggle_pair_counterexample :
    statusInClick stC5 "selectedTags_e5" = none ∧
    statusInClick (handleTagClick (handleTagClick stC5 (some "selectedTags_e5") "#Work").2
      (some "selectedTags_e5") "#Work").2 "selectedTags_e5" = some "Dirty" := by
  exact ⟨by decide, by decide⟩

/-! ## Claims about event-open initialization -/

theorem getAutoTag_no_attendees (p : Props) (sh : Sheet) :
    getAutoTagFromAttendees p sh [] = none := by
  cases sh with
  | unavailable => simp [getAutoTagFromAttendees]
  | missing => simp [getAutoTagFromAttendees]
  | table rows => simp [getAutoTagFromAttendees, scanAttendees]

/-- C6 (amended): on a staging-cache miss, title extraction is applied
exactly when the event is new or the loaded persisted set is empty, and
the attendee-domain lookup is applied on *every* miss.  First conjunct:
for an existing, fetchable event, the seed is the loaded persisted set,
united with the title-extraction result only when the loaded set is
empty, with the attendee-derived tag added even when the loaded set is
non-empty.  Second conjunct: for a new-event open (no event id, an empty
id, or a failed fetch — the source then clears `eventId` at line 48), the
seed under the freshly keyed `selectedTags_new_` entry is the union of
the (empty) loaded set, the title extraction, and the attendee lookup
applied to the (empty) attendee list. -/
theorem c6_initialization :
    (∀ (env : OpenEnv) (cal : Option String) (id uuid : String) (ev : Event),
      truthy cal = true → id ≠ "" →
      lookupA env.remote id = some ev →
      lookupA env.staged ("selectedTags_" ++ id) = none →
      ∃ tags, onCalendarEventOpen env cal (some id) uuid = Except.ok
          { result := OpenResult.dialog tags ("selectedTags_" ++ id) ev.summary
            staged := setA env.staged ("selectedTags_" ++ id) (CacheVal.list tags)
            calendarStored := cal } ∧
        (loadSelectedTags env.remote (some id) ≠ [] →
          ∀ t, t ∈ tags ↔ t ∈ loadSelectedTags env.remote (some id) ∨
            getAutoTagFromAttendees env.props env.sheet ev.attendees = some t) ∧
        (loadSelectedTags env.remote (some id) = [] →
          ∀ t, t ∈ tags ↔
            t ∈ extractTagFromTitle (getUserTags env.props env.sheet) ev.summary ∨
            getAutoTagFromAttendees env.props env.sheet ev.attendees = some t)) ∧
    (∀ (env : OpenEnv) (cal : Option String) (eventIdIn : Option String) (uuid : String),
      truthy cal = true →
      (eventIdIn = none ∨ ∃ id, eventIdIn = some id ∧
        (id = "" ∨ lookupA env.remote id = none)) →
      lookupA env.staged ("selectedTags_new_" ++ uuid) = none →
      ∃ tags, onCalendarEventOpen env cal eventIdIn uuid = Except.ok
          { result := OpenResult.dialog tags ("selectedTags_new_" ++ uuid) none
            staged := setA env.staged ("selectedTags_new_" ++ uuid) (CacheVal.list tags)
            calendarStored := cal } ∧
        ∀ t, t ∈ tags ↔
          t ∈ loadSelectedTags env.remote none ∨
          t ∈ extractTagFromTitle (getUserTags env.props env.sheet) none ∨
          getAutoTagFromAttendees env.props env.sheet [] = some t) := by
  constructor
  · intro env cal id uuid ev hcal hid hrem hmiss
    have hsome : (lookupA env.remote id).isSome = true := by rw [hrem]; rfl
    have heid : (if id ≠ "" ∧ (lookupA env.remote id).isSome then some id else none)
        = some id := if_pos ⟨hid, hsome⟩
    have hfetch : (if id = "" then none else lookupA env.remote id) = some ev := by
      rw [if_neg hid, hrem]
    refine ⟨seedTags env (some id) ev.summary ev.attendees, ?_, ?_, ?_⟩
    · simp only [onCalendarEventOpen, heid, hfetch]
      rw [if_neg (by simp [hcal])]
      simp only [hmiss]
      rfl
    · intro hloaded t
      rw [seedTags]
      have hcond : ¬ ((some id : Option String) = none ∨
          loadSelectedTags env.remote (some id) = []) := by
        rintro (h | h)
        · exact Option.noConfusion h
        · exact hloaded h
      rw [if_neg hcond]
      cases hauto : getAutoTagFromAttendees env.props env.sheet ev.attendees with
      | none => simp
      | some t0 =>
        rw [mem_addSet]
        constructor
        · rintro (hm | rfl)
          · exact Or.inl hm
          · exact Or.inr rfl
        · rintro (hm | hm)
          · exact Or.inl hm
          · exact Or.inr (by injection hm with hh; exact hh.symm)
    · intro hloaded t
      rw [seedTags]
      have hcond : ((some id : Option String) = none ∨
          loadSelectedTags env.remote (some id) = []) := Or.inr hloaded
      rw [if_pos hcond, hloaded]
      cases hauto : getAutoTagFromAttendees env.props env.sheet ev.attendees with
      | none =>
        rw [mem_unionSet]
        simp
      | some t0 =>
        rw [mem_addSet, mem_unionSet]
        simp only [List.not_mem_nil, false_or]
        constructor
        · rintro (hm | rfl)
          · exact Or.inl hm
          · exact Or.inr rfl
        · rintro (hm | hm)
          · exact Or.inl hm
          · exact Or.inr (by injection hm with hh; exact hh.symm)
  · intro env cal eventIdIn uuid hcal hnewev hmiss
    have hmemAll : ∀ t, t ∈ seedTags env none none [] ↔
        t ∈ loadSelectedTags env.remote none ∨
        t ∈ extractTagFromTitle (getUserTags env.props env.sheet) none ∨
        getAutoTagFromAttendees env.props env.sheet [] = some t := by
      intro t
      rw [seedTags]
      have hload : loadSelectedTags env.remote none = [] := rfl
      rw [if_pos (Or.inl rfl), hload, getAutoTag_no_attendees]
      rw [mem_unionSet]
      simp
    rcases hnewev with h | ⟨id, h, hcase⟩
    · subst h
      refine ⟨seedTags env none none [], ?_, hmemAll⟩
      simp only [onCalendarEventOpen, Option.map_none', Option.getD_none, Option.none_bind]
      rw [if_neg (by simp [hcal])]
      simp only [hmiss, getAutoTag_no_attendees]
    · subst h
      have hf : (if id = "" then (none : Option Event) else lookupA env.remote id) = none := by
        by_cases hid : id = ""
        · rw [if_pos hid]
        · rcases hcase with hid' | hr
          · exact absurd hid' hid
          · rw [if_neg hid, hr]
      have he : (if id ≠ "" ∧ (lookupA env.remote id).isSome then some id else none)
          = (none : Option String) := by
        rcases hcase with hid' | hr
        · rw [if_neg (by simp [hid'])]
        · rw [if_neg (by rw [hr]; simp)]
      refine ⟨seedTags env none none [], ?_, hmemAll⟩
      simp only [onCalendarEventOpen, hf, he, Option.map_none', Option.getD_none,
        Option.none_bind]
      rw [if_neg (by simp [hcal])]
      simp only [hmiss, getAutoTag_no_attendees]

/-- Witness for C6: the open of `e1` in `envC6` shows both the persisted
tag `#Work` and the attendee-derived tag `#Sales`; a new-event open in
the same environment seeds the union of the empty loaded set, the title
extraction on the absent title, and the attendee lookup on the empty
attendee list — which is empty. -/
theorem c6_initialization_witness :
    ("#Sales" ∈ shownTags (onCalendarEventOpen envC6 (some "cal") (some "e1") "u")) ∧
    ("#Work" ∈ shownTags (onCalendarEventOpen envC6 (some "cal") (some "e1") "u")) ∧
    shownTags (onCalendarEventOpen envC6 (some "cal") none "u2") = [] := by
  obtain ⟨tags, hok, hmem, _⟩ := c6_initialization.1 envC6 (some "cal") "e1" "u"
    { summary := some "Standup"
      attendees := [{ email := "a@example.com" }]
      tagsProp := some (CacheVal.list ["#Work"]) }
    (by decide) (by decide) (by decide) (by decide)
  obtain ⟨tagsN, hokN, hmemN⟩ := c6_initialization.2 envC6 (some "cal") none "u2"
    (by decide) (Or.inl rfl) (by decide)
  have hmemX := hmem (by decide)
  have hnil : tagsN = [] := by
    refine List.eq_nil_iff_forall_not_mem.mpr (fun t ht => ?_)
    rcases (hmemN t).mp ht with h | h | h
    · exact absurd h (List.not_mem_nil t)
    · have he : extractTagFromTitle (getUserTags envC6.props envC6.sheet) none = [] := rfl
      rw [he] at h
      exact absurd h (List.not_mem_nil t)
    · rw [getAutoTag_no_attendees] at h
      exact Option.noConfusion h
  refine ⟨?_, ?_, ?_⟩
  · rw [hok]
    simp only [shownTags]
    exact (hmemX "#Sales").mpr (Or.inr (by decide))
  · rw [hok]
    simp only [shownTags]
    exact (hmemX "#Work").mpr (Or.inl (by decide))
  · rw [hokN]
    simp only [shownTags]
    exact hnil

/-- Counterexample for C6 as stated: for an existing event whose remote
record already carries the non-empty persisted set `["#Work"]`, the open
handler still adds the attendee-derived tag `#Sales` — the initial staged
TagSet does not equal the loaded set. -/
theorem c6_initialization_counterexample :
    loadSelectedTags envC6.remote (some "e1") = ["#Work"] ∧
    onCalendarEventOpen envC6 (some "cal") (some "e1") "u" = Except.ok
      { result := OpenResult.dialog ["#Work", "#Sales"] "selectedTags_e1" (some "Standup")
        staged := [("selectedTags_e1", CacheVal.list ["#Work", "#Sales"])]
        calendarStored := some "cal" } ∧
    (["#Work", "#Sales"] : List String) ≠ ["#Work"] := by
  exact ⟨by decide, by rfl, by decide⟩

/-! ## Engine-level plumbing -/

theorem saveTags_run (uf : String → Bool) (st : EngineState) (stack : List (String × String))
    (hme : st.modifiedEvents = some stack) (hcal : truthy st.calendarId = true)
    (ms' : MidState)
    (h : processKeys uf { stack := stack, staged := st.staged, remote := st.remote }
      (keysOf stack) = Except.ok ms') :
    saveTagsFromCache uf st = Except.ok
      { modifiedEvents := some ms'.stack
        calendarId := st.calendarId
        staged := ms'.staged
        remote := ms'.remote } := by
  simp only [saveTagsFromCache, hme]
  rw [if_neg (by simp [hcal])]
  simp only [h]

theorem saveTags_err (uf : String → Bool) (st : EngineState) (stack : List (String × String))
    (hme : st.modifiedEvents = some stack) (hcal : truthy st.calendarId = true)
    (e : MidState)
    (h : processKeys uf { stack := stack, staged := st.staged, remote := st.remote }
      (keysOf stack) = Except.error e) :
    saveTagsFromCache uf st = Except.error
      { modifiedEvents := some stack
        calendarId := st.calendarId
        staged := e.staged
        remote := e.remote } := by
  simp only [saveTagsFromCache, hme]
  rw [if_neg (by simp [hcal])]
  simp only [h]

/-! ## Claims about error handling of staged payloads (C4) -/

/-- C4 (amended): a staged payload that fails to parse is treated as the
empty set only in `handleTagClick`, whose parse sits inside `try`; in
`saveTagsFromCache` (line 310) and `onCalendarEventOpen` (line 66) the
parse is unguarded, so a malformed staged payload raises an exception
that escapes the per-key iteration (aborting the pass before the Dirty
index is written back) and the open handler. -/
theorem c4_malformed_payload :
    (∀ (staged : List (String × CacheVal)) (me : Option (List (String × String)))
      (ck tag : String), ck ≠ "" → lookupA staged ck = some CacheVal.malformed →
      (handleTagClick { staged := staged, modifiedEvents := me } (some ck) tag).1
        = ClickResult.updated [tag] ∧
      lookupA (handleTagClick { staged := staged, modifiedEvents := me } (some ck) tag).2.staged ck
        = some (CacheVal.list [tag])) ∧
    (∀ (uf : String → Bool) (st : EngineState) (stack : List (String × String)) (k : String),
      st.modifiedEvents = some stack → truthy st.calendarId = true →
      (keysOf stack).Nodup → lookupA stack k = some "Dirty" →
      lookupA st.staged k = some CacheVal.malformed →
      isOkE (saveTagsFromCache uf st) = false) ∧
    (∀ (env : OpenEnv) (cal : Option String) (id uuid : String),
      truthy cal = true → id ≠ "" → (lookupA env.remote id).isSome = true →
      lookupA env.staged ("selectedTags_" ++ id) = some CacheVal.malformed →
      onCalendarEventOpen env cal (some id) uuid = Except.error ()) := by
  refine ⟨?_, ?_, ?_⟩
  · intro staged me ck tag hck hmal
    rw [handleTagClick_eq { staged := staged, modifiedEvents := me } ck tag hck]
    have hcv : contentOf (lookupA ({ staged := staged, modifiedEvents := me } : ClickState).staged ck)
        = [] := by
      show contentOf (lookupA staged ck) = []
      rw [hmal]
      rfl
    rw [hcv]
    have htl : toggleList [] tag = [tag] := by
      rw [toggleList]
      rfl
    rw [htl]
    exact ⟨rfl, lookupA_setA_self _ _ _⟩
  · intro uf st stack k hme hcal hnd hdk hmal
    obtain ⟨e, he⟩ := processKeys_error_of_malformed uf (keysOf stack)
      { stack := stack, staged := st.staged, remote := st.remote } k
      (mem_keysOf_of_lookupA stack k _ hdk) hnd hdk hmal
    rw [saveTags_err uf st stack hme hcal e he]
    rfl
  · intro env cal id uuid hcal hid hsome hmal
    have heid : (if id ≠ "" ∧ (lookupA env.remote id).isSome then some id else none)
        = some id := if_pos ⟨hid, hsome⟩
    simp only [onCalendarEventOpen, heid]
    rw [if_neg (by simp [hcal])]
    simp only [hmal]

/-- Witness for C4 (amended): concrete instances of all three behaviours. -/
theorem c4_malformed_payload_witness :
    (handleTagClick { staged := [("selectedTags_m", CacheVal.malformed)], modifiedEvents := none }
      (some "selectedTags_m") "#T").1 = ClickResult.updated ["#T"] ∧
    isOkE (saveTagsFromCache ufNone stC4) = false ∧
    onCalendarEventOpen envC4 (some "cal") (some "e1") "u" = Except.error () := by
  refine ⟨?_, ?_, ?_⟩
  · exact (c4_malformed_payload.1 [("selectedTags_m", CacheVal.malformed)] none
      "selectedTags_m" "#T" (by decide) (by decide)).1
  · exact c4_malformed_payload.2.1 ufNone stC4 [("selectedTags_bad", "Dirty")]
      "selectedTags_bad" rfl (by decide) (by decide) (by decide) (by decide)
  · exact c4_malformed_payload.2.2 envC4 (some "cal") "e1" "u"
      (by decide) (by decide) (by decide) (by decide)

/-- Counterexample for C4 as stated: a malformed staged payload under a
Dirty key makes the whole synchronization pass raise, and a malformed
staged payload for an opened new event makes the open handler raise — the
exception is not contained. -/
theorem c4_malformed_payload_counterexample :
    isOkE (saveTagsFromCache ufNone
      { modifiedEvents := some [("selectedTags_x", "Dirty")]
        calendarId := some "c"
        staged := [("selectedTags_x", CacheVal.malformed)]
        remote := [] }) = false ∧
    isOkE (onCalendarEventOpen
      { props := propsFull, sheet := Sheet.missing, remote := []
        staged := [("selectedTags_new_u9", CacheVal.malformed)], calendarSlot := none }
      (some "c") none "u9") = false := by
  exact ⟨by decide, by decide⟩

/-! ## Claims about the Synchronization Engine (C1, C2, C3) -/

/-- C1: with a reachable remote store, one pass of `saveTagsFromCache`
over a Dirty index of existing-event keys — each with a live staged
TagSet and an existing remote record — completes without raising, marks
every Dirty key Clean, removes each key's staged entry, and leaves each
target event's extension-field payload equal to the staged TagSet read at
flush time. -/
theorem c1_flush_convergence (uf : String → Bool) (st : EngineState)
    (stack : List (String × String))
    (hme : st.modifiedEvents = some stack)
    (hcal : truthy st.calendarId = true)
    (hnd : (keysOf stack).Nodup)
    (hpf : ∀ k ∈ keysOf stack, startsWithS k "selectedTags_" = true)
    (hgood : ∀ k, lookupA stack k = some "Dirty" →
      isNewKey k = false ∧ (∃ ts, lookupA st.staged k = some (CacheVal.list ts)) ∧
      (∃ ev, lookupA st.remote (eidOf k) = some ev) ∧ uf (eidOf k) = false) :
    ∃ st', saveTagsFromCache uf st = Except.ok st' ∧
      ∀ k, lookupA stack k = some "Dirty" →
        dirtyStatus st' k = some "Clean" ∧
        lookupA st'.staged k = none ∧
        ∀ ts, lookupA st.staged k = some (CacheVal.list ts) →
          ∃ ev', lookupA st'.remote (eidOf k) = some ev' ∧
            ev'.tagsProp = some (CacheVal.list ts) := by
  have hcls : ∀ k ∈ keysOf stack,
      lookupA ({ stack := stack, staged := st.staged, remote := st.remote } : MidState).stack k
        = some "Dirty" →
      ClassA uf { stack := stack, staged := st.staged, remote := st.remote } k ∨
      ClassB uf { stack := stack, staged := st.staged, remote := st.remote } k ∨
      ClassC { stack := stack, staged := st.staged, remote := st.remote } k :=
    fun k _ hdk => Or.inl (hgood k hdk)
  obtain ⟨ms', hrun, hmain, _, _, _⟩ := processKeys_master uf (keysOf stack)
    { stack := stack, staged := st.staged, remote := st.remote } hnd hpf hcls
  refine ⟨_, saveTags_run uf st stack hme hcal ms' hrun, ?_⟩
  intro k hdk
  have hkmem := mem_keysOf_of_lookupA stack k _ hdk
  obtain ⟨hA, _, _⟩ := hmain k hkmem hdk
  exact hA (hgood k hdk)

/-- Witness for C1: both Dirty keys of `stC1` become Clean, their staged
entries are evicted, and the remote payloads equal the staged lists. -/
theorem c1_flush_convergence_witness :
    dirtyStatus (runPass ufNone stC1) "selectedTags_e1" = some "Clean" ∧
    dirtyStatus (runPass ufNone stC1) "selectedTags_e2" = some "Clean" ∧
    lookupA (runPass ufNone stC1).staged "selectedTags_e1" = none ∧
    lookupA (runPass ufNone stC1).staged "selectedTags_e2" = none ∧
    remoteTags (runPass ufNone stC1) "e1" = some (some (CacheVal.list ["#Work"])) ∧
    remoteTags (runPass ufNone stC1) "e2" = some (some (CacheVal.list ["#Personal", "#Work"])) := by
  obtain ⟨st', hok, hmain⟩ := c1_flush_convergence ufNone stC1
    [("selectedTags_e1", "Dirty"), ("selectedTags_e2", "Dirty")] rfl (by decide) (by decide)
    (by decide)
    (by
      intro k hk
      by_cases h1 : "selectedTags_e1" = k
      · subst h1
        exact ⟨by decide, ⟨["#Work"], by decide⟩, ⟨evPlain, by decide⟩, rfl⟩
      · by_cases h2 : "selectedTags_e2" = k
        · subst h2
          exact ⟨by decide, ⟨["#Personal", "#Work"], by decide⟩, ⟨evPlain, by decide⟩, rfl⟩
        · rw [lookupA, if_neg h1, lookupA, if_neg h2] at hk
          simp [lookupA] at hk)
  have hrp : runPass ufNone stC1 = st' := by
    simp only [runPass, hok]
  obtain ⟨a1, a2, a3⟩ := hmain "selectedTags_e1" (by decide)
  obtain ⟨b1, b2, b3⟩ := hmain "selectedTags_e2" (by decide)
  obtain ⟨ev1, hev1, htp1⟩ := a3 ["#Work"] (by decide)
  obtain ⟨ev2, hev2, htp2⟩ := b3 ["#Personal", "#Work"] (by decide)
  have he1 : eidOf "selectedTags_e1" = "e1" := by decide
  have he2 : eidOf "selectedTags_e2" = "e2" := by decide
  rw [he1] at hev1
  rw [he2] at hev2
  rw [hrp]
  refine ⟨a1, b1, a2, b2, ?_, ?_⟩
  · rw [remoteTags, hev1]
    simp [htp1]
  · rw [remoteTags, hev2]
    simp [htp2]

/-- C2: per-key failure isolation of one flush pass: every Dirty
existing-event key with a live staged TagSet whose remote fetch or update
raises stays Dirty with its staged entry and remote record untouched,
while every other such key — before or after it — is still flushed,
marked Clean and evicted; the pass completes without raising. -/
theorem c2_partial_failure_isolation (uf : String → Bool) (st : EngineState)
    (stack : List (String × String))
    (hme : st.modifiedEvents = some stack)
    (hcal : truthy st.calendarId = true)
    (hnd : (keysOf stack).Nodup)
    (hpf : ∀ k ∈ keysOf stack, startsWithS k "selectedTags_" = true)
    (hall : ∀ k, lookupA stack k = some "Dirty" →
      isNewKey k = false ∧ ∃ ts, lookupA st.staged k = some (CacheVal.list ts)) :
    ∃ st', saveTagsFromCache uf st = Except.ok st' ∧
      ∀ k, lookupA stack k = some "Dirty" →
        (∀ ev, lookupA st.remote (eidOf k) = some ev → uf (eidOf k) = false →
          dirtyStatus st' k = some "Clean" ∧ lookupA st'.staged k = none ∧
          ∀ ts, lookupA st.staged k = some (CacheVal.list ts) →
            ∃ ev', lookupA st'.remote (eidOf k) = some ev' ∧
              ev'.tagsProp = some (CacheVal.list ts)) ∧
        ((lookupA st.remote (eidOf k) = none ∨ uf (eidOf k) = true) →
          dirtyStatus st' k = some "Dirty" ∧
          lookupA st'.staged k = lookupA st.staged k ∧
          lookupA st'.remote (eidOf k) = lookupA st.remote (eidOf k)) := by
  have hcls : ∀ k ∈ keysOf stack,
      lookupA ({ stack := stack, staged := st.staged, remote := st.remote } : MidState).stack k
        = some "Dirty" →
      ClassA uf { stack := stack, staged := st.staged, remote := st.remote } k ∨
      ClassB uf { stack := stack, staged := st.staged, remote := st.remote } k ∨
      ClassC { stack := stack, staged := st.staged, remote := st.remote } k := by
    intro k _ hdk
    obtain ⟨hnew, hts⟩ := hall k hdk
    cases hre : lookupA st.remote (eidOf k) with
    | none => exact Or.inr (Or.inl ⟨hnew, hts, Or.inl hre⟩)
    | some ev =>
      cases huf : uf (eidOf k) with
      | true => exact Or.inr (Or.inl ⟨hnew, hts, Or.inr huf⟩)
      | false => exact Or.inl ⟨hnew, hts, ⟨ev, hre⟩, huf⟩
  obtain ⟨ms', hrun, hmain, _, _, _⟩ := processKeys_master uf (keysOf stack)
    { stack := stack, staged := st.staged, remote := st.remote } hnd hpf hcls
  refine ⟨_, saveTags_run uf st stack hme hcal ms' hrun, ?_⟩
  intro k hdk
  have hkmem := mem_keysOf_of_lookupA stack k _ hdk
  obtain ⟨hA, hB, _⟩ := hmain k hkmem hdk
  obtain ⟨hnew, hts⟩ := hall k hdk
  constructor
  · intro ev hre huf
    exact hA ⟨hnew, hts, ⟨ev, hre⟩, huf⟩
  · intro hfail
    exact hB ⟨hnew, hts, hfail⟩

/-- Witness for C2: in `stC2`, keys `k1` and `k3` are flushed and
evicted while the middle key `k2`, whose remote record is missing, stays
Dirty with its staged entry and remote state intact. -/
theorem c2_partial_failure_isolation_witness :
    dirtyStatus (runPass ufNone stC2) "selectedTags_k1" = some "Clean" ∧
    dirtyStatus (runPass ufNone stC2) "selectedTags_k2" = some "Dirty" ∧
    dirtyStatus (runPass ufNone stC2) "selectedTags_k3" = some "Clean" ∧
    lookupA (runPass ufNone stC2).staged "selectedTags_k1" = none ∧
    lookupA (runPass ufNone stC2).staged "selectedTags_k2" = some (CacheVal.list ["#B"]) ∧
    lookupA (runPass ufNone stC2).staged "selectedTags_k3" = none ∧
    remoteTags (runPass ufNone stC2) "k2" = none ∧
    remoteTags (runPass ufNone stC2) "k3" = some (some (CacheVal.list ["#C"])) := by
  obtain ⟨st', hok, hmain⟩ := c2_partial_failure_isolation ufNone stC2
    [("selectedTags_k1", "Dirty"), ("selectedTags_k2", "Dirty"), ("selectedTags_k3", "Dirty")]
    rfl (by decide) (by decide) (by decide)
    (by
      intro k hk
      by_cases h1 : "selectedTags_k1" = k
      · subst h1
        exact ⟨by decide, ["#A"], by decide⟩
      · by_cases h2 : "selectedTags_k2" = k
        · subst h2
          exact ⟨by decide, ["#B"], by decide⟩
        · by_cases h3 : "selectedTags_k3" = k
          · subst h3
            exact ⟨by decide, ["#C"], by decide⟩
          · rw [lookupA, if_neg h1, lookupA, if_neg h2, lookupA, if_neg h3] at hk
            simp [lookupA] at hk)
  have hrp : runPass ufNone stC2 = st' := by
    simp only [runPass, hok]
  have he1 : eidOf "selectedTags_k1" = "k1" := by decide
  have he2 : eidOf "selectedTags_k2" = "k2" := by decide
  have he3 : eidOf "selectedTags_k3" = "k3" := by decide
  obtain ⟨a1, a2, a3⟩ := (hmain "selectedTags_k1" (by decide)).1 evPlain (by rw [he1]; decide) rfl
  obtain ⟨b1, b2, b3⟩ := (hmain "selectedTags_k2" (by decide)).2 (Or.inl (by rw [he2]; decide))
  obtain ⟨c1, c2, c3⟩ := (hmain "selectedTags_k3" (by decide)).1 evPlain (by rw [he3]; decide) rfl
  obtain ⟨ev3, hev3, htp3⟩ := c3 ["#C"] (by decide)
  rw [he2] at b3
  rw [he3] at hev3
  rw [hrp]
  refine ⟨a1, b1, c1, a2, ?_, c2, ?_, ?_⟩
  · rw [b2]
    decide
  · rw [remoteTags, b3]
    decide
  · rw [remoteTags, hev3]
    simp [htp3]

/-- Single-pass preservation of a Dirty unsaved-event key: whether or not
the pass raises, the key stays Dirty in the persisted index, its staged
entry is untouched, and the index keys stay duplicate-free. -/
theorem runPass_newkey_inv (uf : String → Bool) (st : EngineState)
    (stack : List (String × String)) (k : String)
    (hme : st.modifiedEvents = some stack) (hnd : (keysOf stack).Nodup)
    (hdk : lookupA stack k = some "Dirty") (hnew : isNewKey k = true) :
    ∃ stack', (runPass uf st).modifiedEvents = some stack' ∧ (keysOf stack').Nodup ∧
      lookupA stack' k = some "Dirty" ∧
      lookupA (runPass uf st).staged k = lookupA st.staged k := by
  by_cases hcal : truthy st.calendarId = false
  · have hsave : saveTagsFromCache uf st = Except.ok st := by
      simp only [saveTagsFromCache, hme]
      rw [if_pos hcal]
    rw [runPass, hsave]
    exact ⟨stack, hme, hnd, hdk, rfl⟩
  · have hcal' : truthy st.calendarId = true := by simpa using hcal
    cases hres : processKeys uf { stack := stack, staged := st.staged, remote := st.remote }
        (keysOf stack) with
    | ok ms' =>
      have hsave := saveTags_run uf st stack hme hcal' ms' hres
      rw [runPass, hsave]
      obtain ⟨c1, c2, c3⟩ := (processKeys_newkey_frames uf k hnew (keysOf stack)
        { stack := stack, staged := st.staged, remote := st.remote }).1 ms' hres
      refine ⟨ms'.stack, rfl, c3 hnd, ?_, c2⟩
      rw [c1]
      exact hdk
    | error e =>
      have hsave := saveTags_err uf st stack hme hcal' e hres
      rw [runPass, hsave]
      have c2 := (processKeys_newkey_frames uf k hnew (keysOf stack)
        { stack := stack, staged := st.staged, remote := st.remote }).2 e hres
      exact ⟨stack, rfl, hnd, hdk, c2⟩

/-- C3: a Dirty key bearing the unsaved-event prefix is never flushed by
the Synchronization Engine: over any number of passes it stays Dirty and
its staged entry is never removed by the engine; moreover, when every
Dirty key is an unsaved-event key (with parseable staged payloads), a
pass returns with the state completely unchanged — no remote update
happens at all. -/
theorem c3_new_event_exclusion :
    (∀ (uf : String → Bool) (st : EngineState) (stack : List (String × String))
      (k : String) (n : Nat),
      st.modifiedEvents = some stack → (keysOf stack).Nodup →
      lookupA stack k = some "Dirty" → isNewKey k = true →
      dirtyStatus (runPasses uf n st) k = some "Dirty" ∧
      lookupA (runPasses uf n st).staged k = lookupA st.staged k) ∧
    (∀ (uf : String → Bool) (st : EngineState) (stack : List (String × String)),
      st.modifiedEvents = some stack →
      (∀ k, lookupA stack k = some "Dirty" →
        isNewKey k = true ∧ lookupA st.staged k ≠ some CacheVal.malformed) →
      saveTagsFromCache uf st = Except.ok st) := by
  constructor
  · intro uf st stack k n
    induction n generalizing st stack with
    | zero =>
      intro hme hnd hdk _
      refine ⟨?_, rfl⟩
      rw [runPasses, dirtyStatus, hme]
      exact hdk
    | succ n ih =>
      intro hme hnd hdk hnew
      obtain ⟨stack', hme', hnd', hdk', hstg⟩ :=
        runPass_newkey_inv uf st stack k hme hnd hdk hnew
      obtain ⟨ih1, ih2⟩ := ih (runPass uf st) stack' hme' hnd' hdk' hnew
      rw [runPasses]
      exact ⟨ih1, by rw [ih2, hstg]⟩
  · intro uf st stack hme hall
    obtain ⟨me, cal, sg, rm⟩ := st
    simp only at hme hall
    subst hme
    simp only [saveTagsFromCache]
    by_cases hcal : truthy cal = false
    · rw [if_pos hcal]
    · rw [if_neg hcal]
      rw [processKeys_noop uf (keysOf stack) { stack := stack, staged := sg, remote := rm } hall]

/-- Witness for C3: after three passes the unsaved-event key of `stC3` is
still Dirty with its staged TagSet intact. -/
theorem c3_new_event_exclusion_witness :
    dirtyStatus (runPasses ufNone 3 stC3) "selectedTags_new_u1" = some "Dirty" ∧
    lookupA (runPasses ufNone 3 stC3).staged "selectedTags_new_u1"
      = some (CacheVal.list ["#X"]) := by
  obtain ⟨h1, h2⟩ := c3_new_event_exclusion.1 ufNone stC3
    [("selectedTags_new_u1", "Dirty")] "selectedTags_new_u1" 3
    rfl (by decide) (by decide) (by decide)
  refine ⟨h1, ?_⟩
  rw [h2]
  rfl

end CalendarTagger

/-! Smoke tests (computability of the embedding). -/

example : CalendarTagger.tagTokens ("Sync #Work with #bogus team").data = ["#Work", "#bogus"] := by
  decide

example : CalendarTagger.extractTagFromTitle ["#Work", "#Personal"]
    (some "Sync #Work with #bogus team") = ["#Work"] := by decide

example : CalendarTagger.emailDomain "a@example.com" = some "example.com" := by decide

example : CalendarTagger.eidOf "selectedTags_e1" = "e1" := by decide

example : CalendarTagger.isNewKey "selectedTags_new_u7" = true := by decide

example : CalendarTagger.isNewKey "selectedTags_e1" = false := by decide
